import Mathlib

/-!
# Verification of the wrapster stock-reconciliation core

Shallow embedding of `src/lib/appwrite/products.ts`: the requirement
aggregator (`calculateStockRequirements`), the stock validator
(`validateStockForPackaging`), the stock mutator
(`deductStockForPackaging` / `restoreStockForPackaging`) with its
compensating rollback, the stock setter (`updateStock`), and the cascade
delete (`productService.delete`).

The document store adapter (`databaseService`) and the entity types are
not part of the repository sources; they are modelled from the spec
(sections 3, 6 and 7): a store is a list of `Product` rows plus a list of
`ProductComponent` rows, `getDocument` fails with NotFound when the id is
absent, `updateDocument` may additionally fail with a generic store
failure (section 7, StoreFailure), which we model with an explicit
failure oracle `wf : Nat → Bool` indexed by the sequence number of the
write call inside one batch operation.  Successful writes are recorded in
a write log so that theorems can speak about which products get written
in which phase.
-/

namespace Wrapster

/-- Modelled from the spec (section 3): a Product row.  `id` is the
store-assigned `$id`; `stock_quantity` is an integer. -/
structure Product where
  id : String
  sku_code : Option String
  barcode : String
  name : String
  isBundleKind : Bool
  cost : Int
  stock_quantity : Int
deriving DecidableEq, Repr

/-- Modelled from the spec (section 3): a ProductComponent edge. `cid` is
the store-assigned `$id` of the edge document. -/
structure ProductComponent where
  cid : String
  parent_product_id : String
  child_product_id : String
  quantity : Int
deriving DecidableEq, Repr

/-- Modelled from the spec (section 6): the document store visible to the
core — one collection of products and one of component edges. -/
structure Store where
  products : List Product
  components : List ProductComponent
deriving DecidableEq, Repr

/-- `productService.getById` via `databaseService.getDocument`:
`none` models the NotFound failure (spec section 6). -/
def getById (s : Store) (pid : String) : Option Product :=
  s.products.find? (fun p => p.id == pid)

/-- `productService.getByBarcode`: equality query with limit 1, first
match or null. -/
def getByBarcode (s : Store) (b : String) : Option Product :=
  s.products.find? (fun p => p.barcode == b)

/-- The stock value of a product in the store, when present. -/
def stockOf (s : Store) (pid : String) : Option Int :=
  (getById s pid).map (fun p => p.stock_quantity)

/-- State threaded through a batch operation: the evolving store, the
number of stock-update calls issued so far (indexing the failure
oracle), and the log of successful stock writes `(productId, value)`. -/
structure MState where
  store : Store
  wcount : Nat
  log : List (String × Int)
deriving DecidableEq, Repr

/-- Overwrite the stock quantity of every product row whose id matches
(ids are unique in a well-formed store). -/
def setStock (s : Store) (pid : String) (q : Int) : Store :=
  { s with products :=
      s.products.map (fun p =>
        if p.id == pid then { p with stock_quantity := q } else p) }

/-- `productService.updateStock(productId, newQuantity)`: writes
`Math.max(0, newQuantity)` via `databaseService.updateDocument`.  The
write fails (returns `false`) when the failure oracle trips for this
call index (spec section 7, StoreFailure) or when the product id is
absent (NotFound).  A successful write is appended to the log. -/
def updateStock (wf : Nat → Bool) (st : MState) (pid : String) (q : Int) :
    Bool × MState :=
  let v := max 0 q
  if wf st.wcount then
    (false, { st with wcount := st.wcount + 1 })
  else if st.store.products.any (fun p => p.id == pid) then
    (true, { store := setStock st.store pid v,
             wcount := st.wcount + 1,
             log := st.log ++ [(pid, v)] })
  else
    (false, { st with wcount := st.wcount + 1 })

/-- A requirement map: product id ↦ (first product snapshot, required
quantity), kept in encounter order like a JS `Map`. -/
abbrev ReqMap := List (String × Product × Int)

/-- One update of the requirement map: if the key is present, add `q` to
its required quantity (keeping the first snapshot); otherwise append a
fresh entry. -/
def addReq (m : ReqMap) (pid : String) (p : Product) (q : Int) : ReqMap :=
  if m.any (fun e => e.1 == pid) then
    m.map (fun e => if e.1 == pid then (e.1, e.2.1, e.2.2 + q) else e)
  else
    m ++ [(pid, p, q)]

/-- Modelled from the spec (section 3): a packaging item — a barcode,
an `is_bundle` flag, and an optional caller-supplied component
expansion.  `bundle_components = some []` models a present-but-empty
array (truthy in the source), `none` models an absent field. -/
structure PackagingItem where
  product_barcode : String
  is_bundle : Bool := false
  bundle_components : Option (List (Product × Int)) := none
deriving DecidableEq, Repr

/-- One iteration of the `calculateStockRequirements` loop: bundles with
a present component list contribute each component's quantity; other
items resolve their barcode and contribute 1, or are silently skipped
when the barcode resolves to no product. -/
def calcOne (s : Store) (m : ReqMap) (item : PackagingItem) : ReqMap :=
  match item.is_bundle, item.bundle_components with
  | true, some comps =>
      comps.foldl (fun acc c => addReq acc c.1.id c.1 c.2) m
  | _, _ =>
      match getByBarcode s item.product_barcode with
      | some p => addReq m p.id p 1
      | none => m

/-- `productService.calculateStockRequirements`. -/
def calculateStockRequirements (s : Store) (items : List PackagingItem) :
    ReqMap :=
  items.foldl (calcOne s) []

/-- A shortfall entry of `validateStockForPackaging`. -/
structure Shortfall where
  barcode : String
  name : String
  required : Int
  available : Int
deriving DecidableEq, Repr

/-- The validation loop: re-fetch each required product by id and record
a shortfall from the freshly fetched row when its stock is below the
required quantity.  A NotFound on the re-fetch propagates (`none`): the
source has no try/catch here. -/
def validateLoop (st : MState) : ReqMap → Option (MState × List Shortfall)
  | [] => some (st, [])
  | e :: rest =>
      match getById st.store e.1 with
      | none => none
      | some latest =>
          match validateLoop st rest with
          | none => none
          | some (st', tail) =>
              if latest.stock_quantity < e.2.2 then
                some (st', { barcode := latest.barcode,
                             name := latest.name,
                             required := e.2.2,
                             available := latest.stock_quantity } :: tail)
              else
                some (st', tail)

/-- `productService.validateStockForPackaging`: aggregate, re-fetch each
product, collect shortfalls; `valid` iff no shortfall.  Returns the
threaded state so that write-freedom is observable (log stays empty,
store stays unchanged). -/
def validateStockForPackaging (s : Store) (items : List PackagingItem) :
    Option (MState × Bool × List Shortfall) :=
  match validateLoop ⟨s, 0, []⟩ (calculateStockRequirements s items) with
  | none => none
  | some (st, shorts) => some (st, shorts.isEmpty, shorts)

/-- Structured form of the error strings pushed by the mutator loops;
each constructor records the product id of the loop iteration that
produced it together with the data interpolated into the message. -/
inductive StockError where
  | insufficient (pid name : String) (required available : Int)
  | updateFailed (pid name : String)
  | restoreFailed (pid name : String)
deriving DecidableEq, Repr

/-- The product id of the loop iteration that produced the error. -/
def StockError.pid : StockError → String
  | .insufficient p _ _ _ => p
  | .updateFailed p _ => p
  | .restoreFailed p _ => p

/-- The user-visible message text of an error (exception detail elided). -/
def StockError.render : StockError → String
  | .insufficient _ n r a =>
      "Insufficient stock for " ++ n ++ ": required " ++ toString r ++
        ", available " ++ toString a
  | .updateFailed _ n => "Failed to update stock for " ++ n
  | .restoreFailed _ n => "Failed to restore stock for " ++ n

/-- Accumulator of the deduction loop: threaded state, collected errors,
and the undo list of `(productId, previousStock)` records. -/
structure DeductAcc where
  ms : MState
  errors : List StockError
  undo : List (String × Int)
deriving DecidableEq, Repr

/-- One iteration of the `deductStockForPackaging` per-product loop:
re-fetch the product (a NotFound is caught and becomes an error);
if `newStock < 0` record an insufficient-stock error and skip; otherwise
push the undo record and then attempt the write — note the push happens
before the write, so a failed write still leaves its undo record. -/
def deductStep (wf : Nat → Bool) (acc : DeductAcc)
    (e : String × Product × Int) : DeductAcc :=
  match getById acc.ms.store e.1 with
  | none =>
      { acc with errors := acc.errors ++ [.updateFailed e.1 e.2.1.name] }
  | some latest =>
      let newStock := latest.stock_quantity - e.2.2
      if newStock < 0 then
        { acc with errors := acc.errors ++
            [.insufficient e.1 e.2.1.name e.2.2 latest.stock_quantity] }
      else
        let undo := acc.undo ++ [(e.1, latest.stock_quantity)]
        let r := updateStock wf acc.ms e.1 newStock
        if r.1 then
          { ms := r.2, errors := acc.errors, undo := undo }
        else
          { ms := r.2,
            errors := acc.errors ++ [.updateFailed e.1 e.2.1.name],
            undo := undo }

/-- The per-product loop of `deductStockForPackaging` over the
aggregated requirement map. -/
def deductPhase1 (wf : Nat → Bool) (s : Store) (items : List PackagingItem) :
    DeductAcc :=
  (calculateStockRequirements s items).foldl (deductStep wf)
    ⟨⟨s, 0, []⟩, [], []⟩

/-- One compensating write of the rollback loop: write `previousStock`
back; a failure is logged and swallowed. -/
def rollbackStep (wf : Nat → Bool) (ms : MState) (u : String × Int) :
    MState :=
  (updateStock wf ms u.1 u.2).2

/-- The rollback phase: walk the undo list in order. -/
def deductRollback (wf : Nat → Bool) (acc : DeductAcc) : MState :=
  acc.undo.foldl (rollbackStep wf) acc.ms

/-- Result of a mutator batch: final state, `success`, and the error
list (`success = errors.length == 0`). -/
structure OpResult where
  ms : MState
  success : Bool
  errors : List StockError
deriving DecidableEq, Repr

/-- `productService.deductStockForPackaging`: aggregate, run the
per-product loop, and if any error was collected walk the undo list
writing back each `previousStock`. -/
def deductStockForPackaging (wf : Nat → Bool) (s : Store)
    (items : List PackagingItem) : OpResult :=
  let acc := deductPhase1 wf s items
  if acc.errors.isEmpty then
    ⟨acc.ms, true, acc.errors⟩
  else
    ⟨deductRollback wf acc, false, acc.errors⟩

/-- One iteration of the `restoreStockForPackaging` loop: re-fetch and
add the required quantity back; any failure becomes an error and the
loop continues (no compensating rollback of its own). -/
def restoreStep (wf : Nat → Bool) (acc : MState × List StockError)
    (e : String × Product × Int) : MState × List StockError :=
  match getById acc.1.store e.1 with
  | none => (acc.1, acc.2 ++ [.restoreFailed e.1 e.2.1.name])
  | some latest =>
      let r := updateStock wf acc.1 e.1 (latest.stock_quantity + e.2.2)
      if r.1 then (r.2, acc.2)
      else (r.2, acc.2 ++ [.restoreFailed e.1 e.2.1.name])

/-- `productService.restoreStockForPackaging`. -/
def restoreStockForPackaging (wf : Nat → Bool) (s : Store)
    (items : List PackagingItem) : OpResult :=
  let acc := (calculateStockRequirements s items).foldl (restoreStep wf)
    (⟨s, 0, []⟩, [])
  ⟨acc.1, acc.2.isEmpty, acc.2⟩

/-- Modelled from the spec (section 6): `deleteDocument(collection, id)
-> void` on the component collection — removes the row with that edge
id; the spec specifies no failure for delete, so a missing id is a
no-op. -/
def deleteComponentDoc (s : Store) (cid : String) : Store :=
  { s with components := s.components.filter (fun c => c.cid != cid) }

/-- `productService.delete`: list the component edges where the product
is parent, then those where it is child, delete each of them by edge id,
then delete the product row itself. -/
def deleteProduct (s : Store) (pid : String) : Store :=
  let parents := s.components.filter (fun c => c.parent_product_id == pid)
  let children := s.components.filter (fun c => c.child_product_id == pid)
  let s1 := (parents ++ children).foldl
    (fun st c => deleteComponentDoc st c.cid) s
  { s1 with products := s1.products.filter (fun p => p.id != pid) }

/-! ## Requirement-map lemmas -/

/-- The required total recorded for product id `x` (0 when absent). -/
def reqOf (m : ReqMap) (x : String) : Int :=
  match m.find? (fun e => e.1 == x) with
  | some e => e.2.2
  | none => 0

/-- The contribution of one packaging item to the required total of
product id `x`: the summed component quantities for a bundle with a
present component list, else 1 when the barcode resolves to `x`. -/
def itemContrib (s : Store) (x : String) (item : PackagingItem) : Int :=
  match item.is_bundle, item.bundle_components with
  | true, some comps =>
      (comps.map (fun c => if c.1.id == x then c.2 else 0)).sum
  | _, _ =>
      match getByBarcode s item.product_barcode with
      | some p => if p.id == x then 1 else 0
      | none => 0

theorem addReq_fst (m : ReqMap) (pid : String) (p : Product) (q : Int) :
    (addReq m pid p q).map (fun e => e.1) =
      if m.any (fun e => e.1 == pid) then m.map (fun e => e.1)
      else m.map (fun e => e.1) ++ [pid] := by
  unfold addReq
  split
  · rw [List.map_map]
    refine List.map_congr_left (fun e _ => ?_)
    by_cases h : e.1 = pid <;> simp [h]
  · simp

theorem addReq_nodup {m : ReqMap} {pid : String} {p : Product} {q : Int}
    (h : (m.map (fun e => e.1)).Nodup) :
    ((addReq m pid p q).map (fun e => e.1)).Nodup := by
  rw [addReq_fst]
  by_cases hany : m.any (fun e => e.1 == pid)
  · simpa [hany] using h
  · rw [if_neg hany]
    rw [List.any_eq_true] at hany
    push_neg at hany
    refine List.Nodup.append h (List.nodup_singleton pid) ?_
    intro x hx hx'
    rw [List.mem_singleton] at hx'
    subst hx'
    rcases List.mem_map.mp hx with ⟨e, he, heq⟩
    exact hany e he (beq_iff_eq.mpr heq)

theorem reqOf_addReq (m : ReqMap) (pid : String) (p : Product) (q : Int)
    (x : String) :
    reqOf (addReq m pid p q) x = reqOf m x + (if x = pid then q else 0) := by
  unfold addReq reqOf
  by_cases hany : m.any (fun e => e.1 == pid)
  · rw [if_pos hany, List.find?_map]
    have hpred : ((fun (e : String × Product × Int) => e.1 == x) ∘
        (fun (e : String × Product × Int) =>
          if e.1 == pid then (e.1, e.2.1, e.2.2 + q) else e)) =
        (fun (e : String × Product × Int) => e.1 == x) := by
      funext e
      by_cases h : e.1 = pid <;> simp [h]
    rw [hpred]
    cases hf : m.find? (fun e => e.1 == x) with
    | none =>
        simp only [Option.map_none']
        rw [List.find?_eq_none] at hf
        rcases List.any_eq_true.mp hany with ⟨e, he, hepid⟩
        have hxpid : ¬ x = pid := by
          intro hx
          subst hx
          exact hf e he hepid
        simp [hxpid]
    | some e =>
        have hpe : (e.1 == x) = true :=
          List.find?_some (p := fun (e : String × Product × Int) => e.1 == x) hf
        have hex : e.1 = x := beq_iff_eq.mp hpe
        simp only [Option.map_some']
        by_cases hx : x = pid
        · subst hx
          simp [hex]
        · have : ¬ (e.1 == pid) = true := by
            rw [beq_iff_eq, hex]; exact hx
          simp [this, hx]
  · rw [if_neg hany, List.find?_append]
    cases hf : m.find? (fun e => e.1 == x) with
    | none =>
        simp only [Option.none_or]
        by_cases hx : x = pid
        · subst hx
          simp [List.find?]
        · have : ¬ (pid == x) = true := by
            rw [beq_iff_eq]; intro h; exact hx h.symm
          simp [List.find?, this, hx]
    | some e =>
        have hpe : (e.1 == x) = true :=
          List.find?_some (p := fun (e : String × Product × Int) => e.1 == x) hf
        have hex : e.1 = x := beq_iff_eq.mp hpe
        have hmem := List.mem_of_find?_eq_some hf
        have hxpid : ¬ x = pid := by
          intro hx
          rw [List.any_eq_true] at hany
          push_neg at hany
          exact hany e hmem (beq_iff_eq.mpr (hex.trans hx))
        simp [hxpid]

theorem reqOf_cons_pos {h : String × Product × Int} {t : ReqMap} {x : String}
    (hx : h.1 = x) : reqOf (h :: t) x = h.2.2 := by
  unfold reqOf
  rw [List.find?_cons_of_pos (p := fun e => e.1 == x) t (beq_iff_eq.mpr hx)]

theorem reqOf_cons_neg {h : String × Product × Int} {t : ReqMap} {x : String}
    (hx : ¬ h.1 = x) : reqOf (h :: t) x = reqOf t x := by
  unfold reqOf
  rw [List.find?_cons_of_neg (p := fun e => e.1 == x) t
    (by simpa [beq_iff_eq] using hx)]

theorem reqOf_of_mem {m : ReqMap} {e : String × Product × Int}
    (hnd : (m.map (fun e => e.1)).Nodup) (he : e ∈ m) :
    reqOf m e.1 = e.2.2 := by
  induction m with
  | nil => cases he
  | cons h t ih =>
      rw [List.map_cons, List.nodup_cons] at hnd
      rcases List.mem_cons.mp he with rfl | ht
      · exact reqOf_cons_pos rfl
      · have hne : ¬ h.1 = e.1 := by
          intro hh
          exact hnd.1 (hh ▸ List.mem_map.mpr ⟨e, ht, rfl⟩)
        rw [reqOf_cons_neg hne]
        exact ih hnd.2 ht

theorem reqOf_foldl_addReq (m : ReqMap) (comps : List (Product × Int))
    (x : String) :
    reqOf (comps.foldl (fun acc c => addReq acc c.1.id c.1 c.2) m) x =
      reqOf m x + (comps.map (fun c => if c.1.id == x then c.2 else 0)).sum := by
  induction comps generalizing m with
  | nil => simp
  | cons c cs ih =>
      rw [List.foldl_cons, ih, reqOf_addReq, List.map_cons, List.sum_cons]
      by_cases h : c.1.id = x
      · simp [h, beq_iff_eq]
        ring
      · have : ¬ (c.1.id == x) = true := by rw [beq_iff_eq]; exact h
        have hx : ¬ x = c.1.id := fun hh => h hh.symm
        simp [this, hx]

theorem reqOf_calcOne (s : Store) (m : ReqMap) (item : PackagingItem)
    (x : String) :
    reqOf (calcOne s m item) x = reqOf m x + itemContrib s x item := by
  unfold calcOne itemContrib
  cases hb : item.is_bundle with
  | true =>
      cases hc : item.bundle_components with
      | some comps => exact reqOf_foldl_addReq m comps x
      | none =>
          cases hg : getByBarcode s item.product_barcode with
          | some p =>
              rw [reqOf_addReq]
              by_cases h : p.id = x
              · simp [h, beq_iff_eq]
              · have h1 : ¬ (p.id == x) = true := by rw [beq_iff_eq]; exact h
                have h2 : ¬ x = p.id := fun hh => h hh.symm
                simp [h1, h2]
          | none => simp
  | false =>
      cases hc : item.bundle_components with
      | some comps =>
          cases hg : getByBarcode s item.product_barcode with
          | some p =>
              rw [reqOf_addReq]
              by_cases h : p.id = x
              · simp [h, beq_iff_eq]
              · have h1 : ¬ (p.id == x) = true := by rw [beq_iff_eq]; exact h
                have h2 : ¬ x = p.id := fun hh => h hh.symm
                simp [h1, h2]
          | none => simp
      | none =>
          cases hg : getByBarcode s item.product_barcode with
          | some p =>
              rw [reqOf_addReq]
              by_cases h : p.id = x
              · simp [h, beq_iff_eq]
              · have h1 : ¬ (p.id == x) = true := by rw [beq_iff_eq]; exact h
                have h2 : ¬ x = p.id := fun hh => h hh.symm
                simp [h1, h2]
          | none => simp

theorem reqOf_foldl_calcOne (s : Store) (items : List PackagingItem)
    (m : ReqMap) (x : String) :
    reqOf (items.foldl (calcOne s) m) x =
      reqOf m x + (items.map (itemContrib s x)).sum := by
  induction items generalizing m with
  | nil => simp
  | cons i is ih =>
      rw [List.foldl_cons, ih, reqOf_calcOne, List.map_cons, List.sum_cons]
      ring

theorem reqOf_calcReq (s : Store) (items : List PackagingItem) (x : String) :
    reqOf (calculateStockRequirements s items) x =
      (items.map (itemContrib s x)).sum := by
  unfold calculateStockRequirements
  rw [reqOf_foldl_calcOne]
  simp [reqOf]

theorem calcOne_nodup {s : Store} {m : ReqMap} {item : PackagingItem}
    (h : (m.map (fun e => e.1)).Nodup) :
    ((calcOne s m item).map (fun e => e.1)).Nodup := by
  unfold calcOne
  cases item.is_bundle with
  | true =>
      cases item.bundle_components with
      | some comps =>
          induction comps generalizing m with
          | nil => simpa using h
          | cons c cs ih => exact ih (addReq_nodup h)
      | none =>
          cases getByBarcode s item.product_barcode with
          | some p => exact addReq_nodup h
          | none => simpa using h
  | false =>
      cases item.bundle_components with
      | some comps =>
          cases getByBarcode s item.product_barcode with
          | some p => exact addReq_nodup h
          | none => simpa using h
      | none =>
          cases getByBarcode s item.product_barcode with
          | some p => exact addReq_nodup h
          | none => simpa using h

theorem calcReq_nodup (s : Store) (items : List PackagingItem) :
    ((calculateStockRequirements s items).map (fun e => e.1)).Nodup := by
  unfold calculateStockRequirements
  have aux : ∀ (is : List PackagingItem) (m : ReqMap),
      (m.map (fun e => e.1)).Nodup →
      ((is.foldl (calcOne s) m).map (fun e => e.1)).Nodup := by
    intro is
    induction is with
    | nil => intro m hm; simpa using hm
    | cons i is ih => intro m hm; exact ih _ (calcOne_nodup hm)
  exact aux items [] (by simp)

/-! ## Aggregator claims (C5, C6, C10) -/

/-- Whether an item's barcode resolves to the product id `pid`. -/
def resolvesTo (s : Store) (pid : String) (i : PackagingItem) : Bool :=
  match getByBarcode s i.product_barcode with
  | some p => p.id == pid
  | none => false

theorem sum_contrib_single (s : Store) (pid : String)
    (items : List PackagingItem)
    (hnb : ∀ i ∈ items, i.is_bundle = false) :
    (items.map (itemContrib s pid)).sum =
      (items.countP (resolvesTo s pid) : Int) := by
  induction items with
  | nil => simp
  | cons i is ih =>
      have hi : i.is_bundle = false := hnb i (List.mem_cons_self i is)
      have hrest : ∀ j ∈ is, j.is_bundle = false :=
        fun j hj => hnb j (List.mem_cons_of_mem i hj)
      rw [List.map_cons, List.sum_cons, ih hrest, List.countP_cons]
      cases hg : getByBarcode s i.product_barcode with
      | some p =>
          by_cases hp : p.id = pid
          · simp only [itemContrib, resolvesTo, hi, hg, hp]
            simp
            omega
          · simp [itemContrib, resolvesTo, hi, hg, hp]
      | none => simp [itemContrib, resolvesTo, hi, hg]

/-- C5: for a batch of non-bundle items, every entry of the requirement
map records a required quantity equal to the number of items whose
barcode resolves to that product, and items whose barcode resolves to no
product are silently skipped — the aggregation equals the aggregation of
the resolvable sub-batch. -/
theorem calc_requirements_single_counts (s : Store)
    (items : List PackagingItem)
    (hnb : ∀ i ∈ items, i.is_bundle = false) :
    (∀ e ∈ calculateStockRequirements s items,
        e.2.2 = (items.countP (resolvesTo s e.1) : Int)) ∧
    calculateStockRequirements s items =
      calculateStockRequirements s
        (items.filter (fun i => (getByBarcode s i.product_barcode).isSome)) := by
  constructor
  · intro e he
    have h1 : reqOf (calculateStockRequirements s items) e.1 = e.2.2 :=
      reqOf_of_mem (calcReq_nodup s items) he
    rw [← h1, reqOf_calcReq, sum_contrib_single s e.1 items hnb]
  · have aux : ∀ (is : List PackagingItem) (m : ReqMap),
        (∀ i ∈ is, i.is_bundle = false) →
        is.foldl (calcOne s) m =
          (is.filter
            (fun i => (getByBarcode s i.product_barcode).isSome)).foldl
            (calcOne s) m := by
      intro is
      induction is with
      | nil => intro m _; simp
      | cons i is ih =>
          intro m hm
          have hi : i.is_bundle = false := hm i (List.mem_cons_self i is)
          have hrest : ∀ j ∈ is, j.is_bundle = false :=
            fun j hj => hm j (List.mem_cons_of_mem i hj)
          cases hg : getByBarcode s i.product_barcode with
          | some p =>
              rw [List.foldl_cons]
              have hkeep : (List.filter
                  (fun i => (getByBarcode s i.product_barcode).isSome)
                  (i :: is)) =
                  i :: is.filter
                    (fun i => (getByBarcode s i.product_barcode).isSome) := by
                simp [List.filter_cons, hg]
              rw [hkeep, List.foldl_cons]
              exact ih _ hrest
          | none =>
              rw [List.foldl_cons]
              have hskip : calcOne s m i = m := by
                simp [calcOne, hi, hg]
              have hdrop : (List.filter
                  (fun i => (getByBarcode s i.product_barcode).isSome)
                  (i :: is)) =
                  is.filter
                    (fun i => (getByBarcode s i.product_barcode).isSome) := by
                simp [List.filter_cons, hg]
              rw [hskip, hdrop]
              exact ih _ hrest
    exact aux items [] hnb

/-- C6: the aggregator is additive — the required total of every product
id is the sum over the batch of each item's independent contribution
(component quantities for an expanded bundle, 1 for a resolved single
item) — and consequently the required totals are invariant under
permutation of the batch. -/
theorem calc_requirements_additive (s : Store)
    (items items' : List PackagingItem) (hperm : items.Perm items') :
    (∀ x, reqOf (calculateStockRequirements s items) x =
        (items.map (itemContrib s x)).sum) ∧
    (∀ x, reqOf (calculateStockRequirements s items') x =
        reqOf (calculateStockRequirements s items) x) := by
  refine ⟨fun x => reqOf_calcReq s items x, fun x => ?_⟩
  rw [reqOf_calcReq, reqOf_calcReq]
  exact (List.Perm.sum_eq (hperm.map (itemContrib s x))).symm

/-- C10: an item flagged as a bundle whose component list is present but
empty contributes nothing to the requirement map — the bundle branch is
taken for every store, so no barcode lookup influences the result — and
removing the item from any position in the batch leaves the aggregation
unchanged. -/
theorem empty_bundle_item_contributes_nothing (s : Store) (m : ReqMap)
    (item : PackagingItem) (h1 : item.is_bundle = true)
    (h2 : item.bundle_components = some []) :
    calcOne s m item = m ∧
    ∀ pre post, calculateStockRequirements s (pre ++ item :: post) =
      calculateStockRequirements s (pre ++ post) := by
  have hone : ∀ m' : ReqMap, calcOne s m' item = m' := by
    intro m'
    simp [calcOne, h1, h2]
  refine ⟨hone m, fun pre post => ?_⟩
  unfold calculateStockRequirements
  rw [List.foldl_append, List.foldl_append, List.foldl_cons, hone]

/-! ## Concrete fixtures for witnesses and counterexamples -/

/-- Fixture product A. -/
def prodA : Product :=
  { id := "a", sku_code := none, barcode := "A1", name := "Apple",
    isBundleKind := false, cost := 0, stock_quantity := 5 }

/-- Fixture product B. -/
def prodB : Product :=
  { id := "b", sku_code := none, barcode := "B1", name := "Beet",
    isBundleKind := false, cost := 0, stock_quantity := 5 }

/-- Fixture product C. -/
def prodC : Product :=
  { id := "c", sku_code := none, barcode := "C1", name := "Cherry",
    isBundleKind := false, cost := 0, stock_quantity := 1 }

/-- Fixture store holding the three products and no component edges. -/
def store0 : Store := ⟨[prodA, prodB, prodC], []⟩

/-- An oracle under which every write succeeds. -/
def wfNone : Nat → Bool := fun _ => false

/-- Fixture item scanning barcode `A1`. -/
def itemA1 : PackagingItem := { product_barcode := "A1" }

/-- Fixture item scanning barcode `B1`. -/
def itemB1 : PackagingItem := { product_barcode := "B1" }

/-- Fixture item scanning an unresolvable barcode. -/
def itemZ9 : PackagingItem := { product_barcode := "Z9" }

/-- Fixture bundle item with a present-but-empty component list. -/
def emptyBundleItem : PackagingItem :=
  { product_barcode := "A1", is_bundle := true, bundle_components := some [] }

theorem calc_requirements_single_counts_witness :
    (∀ i ∈ [itemA1, itemZ9, itemA1], i.is_bundle = false) ∧
    (∀ e ∈ calculateStockRequirements store0 [itemA1, itemZ9, itemA1],
        e.2.2 = (([itemA1, itemZ9, itemA1].countP
          (resolvesTo store0 e.1)) : Int)) ∧
    calculateStockRequirements store0 [itemA1, itemZ9, itemA1] =
      calculateStockRequirements store0
        ([itemA1, itemZ9, itemA1].filter
          (fun i => (getByBarcode store0 i.product_barcode).isSome)) := by
  refine ⟨by decide, ?_⟩
  exact calc_requirements_single_counts store0 [itemA1, itemZ9, itemA1]
    (by decide)

theorem calc_requirements_additive_witness :
    ([itemA1, itemB1].Perm [itemB1, itemA1]) ∧
    ((∀ x, reqOf (calculateStockRequirements store0 [itemA1, itemB1]) x =
        ([itemA1, itemB1].map (itemContrib store0 x)).sum) ∧
     (∀ x, reqOf (calculateStockRequirements store0 [itemB1, itemA1]) x =
        reqOf (calculateStockRequirements store0 [itemA1, itemB1]) x)) := by
  have hp : [itemA1, itemB1].Perm [itemB1, itemA1] := List.Perm.swap _ _ _
  exact ⟨hp, calc_requirements_additive store0 _ _ hp⟩

theorem empty_bundle_item_contributes_nothing_witness :
    emptyBundleItem.is_bundle = true ∧
    emptyBundleItem.bundle_components = some [] ∧
    calcOne store0 [] emptyBundleItem = [] ∧
    ∀ pre post, calculateStockRequirements store0
        (pre ++ emptyBundleItem :: post) =
      calculateStockRequirements store0 (pre ++ post) := by
  have h := empty_bundle_item_contributes_nothing store0 [] emptyBundleItem
    rfl rfl
  exact ⟨rfl, rfl, h.1, h.2⟩

/-! ## Cascade delete (C9) -/

theorem foldl_deleteComponentDoc_components (L : List ProductComponent)
    (s : Store) :
    (L.foldl (fun st c => deleteComponentDoc st c.cid) s).components =
      s.components.filter (fun c => !(L.any (fun d => d.cid == c.cid))) := by
  induction L generalizing s with
  | nil => simp
  | cons d L ih =>
      rw [List.foldl_cons, ih]
      show (List.filter _ (deleteComponentDoc s d.cid).components) = _
      unfold deleteComponentDoc
      rw [List.filter_filter]
      refine List.filter_congr (fun c _ => ?_)
      show ((!(L.any fun d => d.cid == c.cid)) && (c.cid != d.cid)) = _
      by_cases h1 : d.cid = c.cid
      · have : (c.cid != d.cid) = false := by simp [h1]
        simp [this, h1]
      · have h2 : ¬ c.cid = d.cid := fun hh => h1 hh.symm
        have : (c.cid != d.cid) = true := by simp [h2]
        simp [this, h1]

theorem foldl_deleteComponentDoc_products (L : List ProductComponent)
    (s : Store) :
    (L.foldl (fun st c => deleteComponentDoc st c.cid) s).products =
      s.products := by
  induction L generalizing s with
  | nil => rfl
  | cons d L ih => rw [List.foldl_cons, ih]; rfl

/-- C9: `productService.delete` removes exactly the component edges in
which the product participates as parent or as child (assuming edge ids
are unique, as store-assigned ids are), keeps all other edges in order,
and removes the product row itself. -/
theorem delete_product_cascades (s : Store) (pid : String)
    (hnd : (s.components.map (fun c => c.cid)).Nodup) :
    (deleteProduct s pid).components =
      s.components.filter
        (fun c => !(c.parent_product_id == pid ||
          c.child_product_id == pid)) ∧
    (deleteProduct s pid).products =
      s.products.filter (fun p => p.id != pid) := by
  unfold deleteProduct
  constructor
  · show (List.foldl _ s _).components = _
    rw [foldl_deleteComponentDoc_components]
    refine List.filter_congr (fun c hc => ?_)
    have key : ((s.components.filter
          (fun c => c.parent_product_id == pid) ++
        s.components.filter
          (fun c => c.child_product_id == pid)).any
        (fun d => d.cid == c.cid)) =
        (c.parent_product_id == pid || c.child_product_id == pid) := by
      by_cases hpc : c.parent_product_id = pid ∨ c.child_product_id = pid
      · have hmem : c ∈ s.components.filter
              (fun c => c.parent_product_id == pid) ++
            s.components.filter (fun c => c.child_product_id == pid) := by
          rcases hpc with h | h
          · exact List.mem_append_left _
              (List.mem_filter.mpr ⟨hc, beq_iff_eq.mpr h⟩)
          · exact List.mem_append_right _
              (List.mem_filter.mpr ⟨hc, beq_iff_eq.mpr h⟩)
        have hany : ((s.components.filter
              (fun c => c.parent_product_id == pid) ++
            s.components.filter
              (fun c => c.child_product_id == pid)).any
            (fun d => d.cid == c.cid)) = true :=
          List.any_eq_true.mpr ⟨c, hmem, beq_iff_eq.mpr rfl⟩
        rw [hany]
        rcases hpc with h | h <;> simp [h]
      · push_neg at hpc
        have hany : ((s.components.filter
              (fun c => c.parent_product_id == pid) ++
            s.components.filter
              (fun c => c.child_product_id == pid)).any
            (fun d => d.cid == c.cid)) = false := by
          rw [List.any_eq_false]
          rintro d hd hdc
          have hdcid : d.cid = c.cid := beq_iff_eq.mp hdc
          have hdmem : d ∈ s.components := by
            rcases List.mem_append.mp hd with h | h
            · exact (List.mem_filter.mp h).1
            · exact (List.mem_filter.mp h).1
          have hdc' : d = c :=
            List.inj_on_of_nodup_map hnd hdmem hc hdcid
          subst hdc'
          rcases List.mem_append.mp hd with h | h
          · exact hpc.1 (beq_iff_eq.mp (List.mem_filter.mp h).2)
          · exact hpc.2 (beq_iff_eq.mp (List.mem_filter.mp h).2)
        rw [hany]
        have h1 : (c.parent_product_id == pid) = false := by
          simp [hpc.1]
        have h2 : (c.child_product_id == pid) = false := by
          simp [hpc.2]
        rw [h1, h2]
        rfl
    rw [key]
  · show (List.filter _ (List.foldl _ s _).products) = _
    rw [foldl_deleteComponentDoc_products]

theorem delete_product_cascades_witness :
    ((Store.mk [prodA, prodB, prodC]
        [⟨"e1", "a", "b", 2⟩, ⟨"e2", "b", "c", 1⟩,
         ⟨"e3", "c", "a", 1⟩]).components.map
      (fun c => c.cid)).Nodup ∧
    (deleteProduct (Store.mk [prodA, prodB, prodC]
        [⟨"e1", "a", "b", 2⟩, ⟨"e2", "b", "c", 1⟩,
         ⟨"e3", "c", "a", 1⟩]) "a").components =
      (Store.mk [prodA, prodB, prodC]
        [⟨"e1", "a", "b", 2⟩, ⟨"e2", "b", "c", 1⟩,
         ⟨"e3", "c", "a", 1⟩]).components.filter
        (fun c => !(c.parent_product_id == "a" ||
          c.child_product_id == "a")) ∧
    (deleteProduct (Store.mk [prodA, prodB, prodC]
        [⟨"e1", "a", "b", 2⟩, ⟨"e2", "b", "c", 1⟩,
         ⟨"e3", "c", "a", 1⟩]) "a").products =
      (Store.mk [prodA, prodB, prodC]
        [⟨"e1", "a", "b", 2⟩, ⟨"e2", "b", "c", 1⟩,
         ⟨"e3", "c", "a", 1⟩]).products.filter
        (fun p => p.id != "a") := by
  have h := delete_product_cascades (Store.mk [prodA, prodB, prodC]
    [⟨"e1", "a", "b", 2⟩, ⟨"e2", "b", "c", 1⟩, ⟨"e3", "c", "a", 1⟩]) "a"
    (by decide)
  exact ⟨by decide, h.1, h.2⟩

/-! ## Validator (C4) -/

/-- The shortfall entry computed for one requirement entry from the
freshly fetched product row. -/
def freshShortfall (s : Store) (e : String × Product × Int) :
    Option Shortfall :=
  match getById s e.1 with
  | some latest =>
      if latest.stock_quantity < e.2.2 then
        some { barcode := latest.barcode, name := latest.name,
               required := e.2.2, available := latest.stock_quantity }
      else none
  | none => none

theorem validateLoop_isSome {st : MState} {m : ReqMap}
    {out : MState × List Shortfall} (h : validateLoop st m = some out) :
    ∀ e ∈ m, (getById st.store e.1).isSome := by
  induction m generalizing out with
  | nil => intro e he; cases he
  | cons e rest ih =>
      intro e' he'
      unfold validateLoop at h
      cases hg : getById st.store e.1 with
      | none => rw [hg] at h; cases h
      | some latest =>
          rw [hg] at h
          cases hr : validateLoop st rest with
          | none => rw [hr] at h; cases h
          | some pr =>
              rcases List.mem_cons.mp he' with rfl | hrest
              · rw [hg]; rfl
              · exact ih hr e' hrest

theorem validateLoop_eq_of_isSome {st : MState} {m : ReqMap}
    (h : ∀ e ∈ m, (getById st.store e.1).isSome) :
    validateLoop st m = some (st, m.filterMap (freshShortfall st.store)) := by
  induction m with
  | nil => rfl
  | cons e rest ih =>
      obtain ⟨latest, hg⟩ :=
        Option.isSome_iff_exists.mp (h e (List.mem_cons_self e rest))
      have hrest := ih (fun e' he' => h e' (List.mem_cons_of_mem e he'))
      unfold validateLoop
      rw [hg, hrest, List.filterMap_cons]
      by_cases hlt : latest.stock_quantity < e.2.2
      · simp [freshShortfall, hg, hlt]
      · simp [freshShortfall, hg, hlt]

/-- C4: when `validateStockForPackaging` returns, it has performed no
writes (the threaded state still holds the original store and an empty
write log); `valid = true` holds iff every product of the aggregated
requirement map has freshly re-fetched stock at least the required
quantity; and the shortfall list consists, in map order, of exactly the
insufficient entries, each built from the freshly fetched barcode, name
and available stock together with the required quantity from the map. -/
theorem validate_stock_correct (s : Store) (items : List PackagingItem)
    (st : MState) (valid : Bool) (shorts : List Shortfall)
    (h : validateStockForPackaging s items = some (st, valid, shorts)) :
    st.store = s ∧ st.log = [] ∧
    (valid = true ↔ ∀ e ∈ calculateStockRequirements s items,
      ∃ latest, getById s e.1 = some latest ∧
        e.2.2 ≤ latest.stock_quantity) ∧
    shorts = (calculateStockRequirements s items).filterMap
      (freshShortfall s) := by
  unfold validateStockForPackaging at h
  cases hv : validateLoop ⟨s, 0, []⟩ (calculateStockRequirements s items) with
  | none => rw [hv] at h; cases h
  | some out =>
      rw [hv] at h
      have hsome := validateLoop_isSome hv
      have heq := validateLoop_eq_of_isSome hsome
      rw [heq] at hv
      have hout : out = (⟨s, 0, []⟩,
          (calculateStockRequirements s items).filterMap
            (freshShortfall s)) := by
        injection hv.symm
      subst hout
      simp only [Option.some.injEq, Prod.mk.injEq] at h
      obtain ⟨hst, hvalid, hshorts⟩ := h
      refine ⟨by rw [← hst], by rw [← hst], ?_, hshorts.symm⟩
      rw [← hvalid]
      rw [List.isEmpty_eq_true, List.filterMap_eq_nil_iff]
      constructor
      · intro hall e he
        obtain ⟨latest, hg⟩ := Option.isSome_iff_exists.mp (hsome e he)
        refine ⟨latest, hg, ?_⟩
        have hthis := hall e he
        simp only [freshShortfall, hg] at hthis
        by_contra hlt
        push_neg at hlt
        rw [if_pos hlt] at hthis
        cases hthis
      · intro hall e he
        obtain ⟨latest, hg, hle⟩ := hall e he
        simp only [freshShortfall, hg]
        rw [if_neg (by omega)]

theorem validate_stock_correct_witness :
    validateStockForPackaging store0 [itemA1, itemA1] =
      some (⟨store0, 0, []⟩, true, []) ∧
    ((⟨store0, 0, []⟩ : MState).store = store0 ∧
      (⟨store0, 0, []⟩ : MState).log = [] ∧
      ((true = true) ↔ ∀ e ∈ calculateStockRequirements store0
          [itemA1, itemA1],
        ∃ latest, getById store0 e.1 = some latest ∧
          e.2.2 ≤ latest.stock_quantity) ∧
      ([] : List Shortfall) =
        (calculateStockRequirements store0 [itemA1, itemA1]).filterMap
          (freshShortfall store0)) := by
  have hc : validateStockForPackaging store0 [itemA1, itemA1] =
      some (⟨store0, 0, []⟩, true, []) := by decide
  exact ⟨hc, validate_stock_correct store0 [itemA1, itemA1] _ _ _ hc⟩

/-! ## Store and write-step lemmas -/

theorem getById_id {s : Store} {pid : String} {p : Product}
    (h : getById s pid = some p) : p.id = pid := by
  unfold getById at h
  exact beq_iff_eq.mp (List.find?_some (p := fun (p : Product) => p.id == pid) h)

theorem getById_mem {s : Store} {pid : String} {p : Product}
    (h : getById s pid = some p) : p ∈ s.products := by
  unfold getById at h
  exact List.mem_of_find?_eq_some h

theorem any_id_of_getById {s : Store} {pid : String} {p : Product}
    (h : getById s pid = some p) :
    (s.products.any (fun p => p.id == pid)) = true :=
  List.any_eq_true.mpr ⟨p, getById_mem h, beq_iff_eq.mpr (getById_id h)⟩

theorem getById_setStock (s : Store) (x : String) (q : Int) (pid : String) :
    getById (setStock s x q) pid =
      (getById s pid).map (fun p =>
        if p.id == x then { p with stock_quantity := q } else p) := by
  unfold getById setStock
  show (s.products.map _).find? _ = _
  rw [List.find?_map]
  have hpred : ((fun (p : Product) => p.id == pid) ∘
      (fun p => if p.id == x then { p with stock_quantity := q } else p)) =
      (fun (p : Product) => p.id == pid) := by
    funext p
    by_cases h : p.id = x <;> simp [h]
  rw [hpred]

theorem getById_setStock_ne {s : Store} {x : String} {q : Int}
    {pid : String} (h : ¬ pid = x) :
    getById (setStock s x q) pid = getById s pid := by
  rw [getById_setStock]
  cases hg : getById s pid with
  | none => rfl
  | some p =>
      have hid : p.id = pid := getById_id hg
      have : ¬ p.id = x := fun hh => h (hid ▸ hh)
      simp [this]

theorem getById_setStock_self {s : Store} {x : String} {q : Int} :
    getById (setStock s x q) x =
      (getById s x).map (fun p => { p with stock_quantity := q }) := by
  rw [getById_setStock]
  cases hg : getById s x with
  | none => rfl
  | some p => simp [getById_id hg]

theorem any_setStock (s : Store) (x : String) (q : Int) (pid : String) :
    ((setStock s x q).products.any (fun p => p.id == pid)) =
      (s.products.any (fun p => p.id == pid)) := by
  unfold setStock
  show (s.products.map _).any _ = _
  rw [List.any_map]
  have hpred : ((fun (p : Product) => p.id == pid) ∘
      (fun p => if p.id == x then { p with stock_quantity := q } else p)) =
      (fun (p : Product) => p.id == pid) := by
    funext p
    by_cases h : p.id = x <;> simp [h]
  rw [hpred]

theorem updateStock_success {wf : Nat → Bool} {st : MState} {pid : String}
    {q : Int} {p : Product} (hwf : wf st.wcount = false)
    (hget : getById st.store pid = some p) :
    updateStock wf st pid q =
      (true, ⟨setStock st.store pid (max 0 q), st.wcount + 1,
        st.log ++ [(pid, max 0 q)]⟩) := by
  unfold updateStock
  rw [hwf]
  simp only [Bool.false_eq_true, if_false, any_id_of_getById hget, if_true]

theorem updateStock_oracle_fail {wf : Nat → Bool} {st : MState}
    {pid : String} {q : Int} (hwf : wf st.wcount = true) :
    updateStock wf st pid q = (false, { st with wcount := st.wcount + 1 }) := by
  unfold updateStock
  rw [hwf]
  simp

theorem deductStep_ok {wf : Nat → Bool} {acc : DeductAcc}
    {e : String × Product × Int} {latest : Product}
    (hget : getById acc.ms.store e.1 = some latest)
    (hns : 0 ≤ latest.stock_quantity - e.2.2)
    (hwf : wf acc.ms.wcount = false) :
    deductStep wf acc e =
      ⟨⟨setStock acc.ms.store e.1 (latest.stock_quantity - e.2.2),
        acc.ms.wcount + 1,
        acc.ms.log ++ [(e.1, latest.stock_quantity - e.2.2)]⟩,
       acc.errors, acc.undo ++ [(e.1, latest.stock_quantity)]⟩ := by
  unfold deductStep
  simp only [hget]
  have hlt : ¬ latest.stock_quantity - e.2.2 < 0 := by omega
  rw [if_neg hlt]
  rw [updateStock_success hwf hget]
  have hmax : max 0 (latest.stock_quantity - e.2.2) =
      latest.stock_quantity - e.2.2 := by omega
  simp [hmax]

theorem deductStep_insufficient (wf : Nat → Bool) {acc : DeductAcc}
    {e : String × Product × Int} {latest : Product}
    (hget : getById acc.ms.store e.1 = some latest)
    (hlt : latest.stock_quantity - e.2.2 < 0) :
    deductStep wf acc e =
      { acc with errors := acc.errors ++
          [.insufficient e.1 e.2.1.name e.2.2 latest.stock_quantity] } := by
  unfold deductStep
  simp only [hget]
  rw [if_pos hlt]

theorem deductStep_writefail {wf : Nat → Bool} {acc : DeductAcc}
    {e : String × Product × Int} {latest : Product}
    (hget : getById acc.ms.store e.1 = some latest)
    (hns : 0 ≤ latest.stock_quantity - e.2.2)
    (hwf : wf acc.ms.wcount = true) :
    deductStep wf acc e =
      ⟨{ acc.ms with wcount := acc.ms.wcount + 1 },
       acc.errors ++ [.updateFailed e.1 e.2.1.name],
       acc.undo ++ [(e.1, latest.stock_quantity)]⟩ := by
  unfold deductStep
  simp only [hget]
  have hlt : ¬ latest.stock_quantity - e.2.2 < 0 := by omega
  rw [if_neg hlt]
  rw [updateStock_oracle_fail hwf]
  simp

theorem rollbackStep_ok {wf : Nat → Bool} {ms : MState}
    {u : String × Int} {p : Product}
    (hget : getById ms.store u.1 = some p) (hwf : wf ms.wcount = false) :
    rollbackStep wf ms u =
      ⟨setStock ms.store u.1 (max 0 u.2), ms.wcount + 1,
       ms.log ++ [(u.1, max 0 u.2)]⟩ := by
  unfold rollbackStep
  rw [updateStock_success hwf hget]

/-! ## Loop frame lemmas -/

theorem updateStock_store_cases (wf : Nat → Bool) (st : MState)
    (pid : String) (q : Int) :
    (updateStock wf st pid q).2.store = st.store ∨
    (updateStock wf st pid q).2.store = setStock st.store pid (max 0 q) := by
  unfold updateStock
  by_cases h1 : wf st.wcount
  · left; simp [h1]
  · by_cases h2 : st.store.products.any (fun p => p.id == pid)
    · right; simp [h1, h2]
    · left; simp [h1, h2]

theorem updateStock_log_append (wf : Nat → Bool) (st : MState)
    (pid : String) (q : Int) :
    ∃ t, (updateStock wf st pid q).2.log = st.log ++ t := by
  unfold updateStock
  by_cases h1 : wf st.wcount
  · exact ⟨[], by simp [h1]⟩
  · by_cases h2 : st.store.products.any (fun p => p.id == pid)
    · exact ⟨[(pid, max 0 q)], by simp [h1, h2]⟩
    · exact ⟨[], by simp [h1, h2]⟩

theorem updateStock_true {wf : Nat → Bool} {st : MState} {pid : String}
    {q : Int} (h : (updateStock wf st pid q).1 = true) :
    (updateStock wf st pid q).2 =
      ⟨setStock st.store pid (max 0 q), st.wcount + 1,
       st.log ++ [(pid, max 0 q)]⟩ := by
  unfold updateStock at h ⊢
  by_cases h1 : wf st.wcount
  · simp [h1] at h
  · by_cases h2 : st.store.products.any (fun p => p.id == pid)
    · simp [h1, h2]
    · simp [h1, h2] at h

theorem deductStep_store_cases (wf : Nat → Bool) (acc : DeductAcc)
    (e : String × Product × Int) :
    (deductStep wf acc e).ms.store = acc.ms.store ∨
    ∃ q, (deductStep wf acc e).ms.store = setStock acc.ms.store e.1 q := by
  unfold deductStep
  cases hget : getById acc.ms.store e.1 with
  | none => left; rfl
  | some latest =>
      simp only
      by_cases hlt : latest.stock_quantity - e.2.2 < 0
      · rw [if_pos hlt]; left; rfl
      · rw [if_neg hlt]
        rcases updateStock_store_cases wf acc.ms e.1
            (latest.stock_quantity - e.2.2) with h | h
        · by_cases hr : (updateStock wf acc.ms e.1
              (latest.stock_quantity - e.2.2)).1 = true
          · left; simp only [hr, if_pos]; exact h
          · left
            rw [if_neg (by simpa using hr)]
            exact h
        · by_cases hr : (updateStock wf acc.ms e.1
              (latest.stock_quantity - e.2.2)).1 = true
          · right
            refine ⟨max 0 (latest.stock_quantity - e.2.2), ?_⟩
            simp only [hr, if_pos]
            exact h
          · right
            refine ⟨max 0 (latest.stock_quantity - e.2.2), ?_⟩
            rw [if_neg (by simpa using hr)]
            exact h

theorem deductStep_store_ne {wf : Nat → Bool} {acc : DeductAcc}
    {e : String × Product × Int} {x : String} (h : ¬ x = e.1) :
    getById (deductStep wf acc e).ms.store x = getById acc.ms.store x := by
  rcases deductStep_store_cases wf acc e with hc | ⟨q, hc⟩
  · rw [hc]
  · rw [hc, getById_setStock_ne h]

theorem deductStep_errors_shape (wf : Nat → Bool) (acc : DeductAcc)
    (e : String × Product × Int) :
    ∃ t, (deductStep wf acc e).errors = acc.errors ++ t ∧
      ∀ err ∈ t, err.pid = e.1 := by
  unfold deductStep
  cases hget : getById acc.ms.store e.1 with
  | none =>
      exact ⟨[.updateFailed e.1 e.2.1.name], rfl, by
        intro err herr
        rw [List.mem_singleton] at herr
        subst herr
        rfl⟩
  | some latest =>
      simp only
      by_cases hlt : latest.stock_quantity - e.2.2 < 0
      · rw [if_pos hlt]
        exact ⟨[.insufficient e.1 e.2.1.name e.2.2 latest.stock_quantity],
          rfl, by
            intro err herr
            rw [List.mem_singleton] at herr
            subst herr
            rfl⟩
      · rw [if_neg hlt]
        by_cases hr : (updateStock wf acc.ms e.1
            (latest.stock_quantity - e.2.2)).1 = true
        · rw [if_pos hr]
          exact ⟨[], by simp, by intro err herr; cases herr⟩
        · rw [if_neg (by simpa using hr)]
          exact ⟨[.updateFailed e.1 e.2.1.name], rfl, by
            intro err herr
            rw [List.mem_singleton] at herr
            subst herr
            rfl⟩

theorem deductStep_undo_shape (wf : Nat → Bool) (acc : DeductAcc)
    (e : String × Product × Int) :
    ∃ t, (deductStep wf acc e).undo = acc.undo ++ t ∧
      ∀ u ∈ t, u.1 = e.1 := by
  unfold deductStep
  cases hget : getById acc.ms.store e.1 with
  | none => exact ⟨[], by simp, by intro u hu; cases hu⟩
  | some latest =>
      simp only
      by_cases hlt : latest.stock_quantity - e.2.2 < 0
      · rw [if_pos hlt]
        exact ⟨[], by simp, by intro u hu; cases hu⟩
      · rw [if_neg hlt]
        by_cases hr : (updateStock wf acc.ms e.1
            (latest.stock_quantity - e.2.2)).1 = true
        · rw [if_pos hr]
          exact ⟨[(e.1, latest.stock_quantity)], rfl, by
            intro u hu
            rw [List.mem_singleton] at hu
            subst hu
            rfl⟩
        · rw [if_neg (by simpa using hr)]
          exact ⟨[(e.1, latest.stock_quantity)], rfl, by
            intro u hu
            rw [List.mem_singleton] at hu
            subst hu
            rfl⟩

theorem deductStep_log_append (wf : Nat → Bool) (acc : DeductAcc)
    (e : String × Product × Int) :
    ∃ t, (deductStep wf acc e).ms.log = acc.ms.log ++ t := by
  unfold deductStep
  cases hget : getById acc.ms.store e.1 with
  | none => exact ⟨[], by simp⟩
  | some latest =>
      simp only
      by_cases hlt : latest.stock_quantity - e.2.2 < 0
      · rw [if_pos hlt]
        exact ⟨[], by simp⟩
      · rw [if_neg hlt]
        obtain ⟨t, ht⟩ := updateStock_log_append wf acc.ms e.1
          (latest.stock_quantity - e.2.2)
        by_cases hr : (updateStock wf acc.ms e.1
            (latest.stock_quantity - e.2.2)).1 = true
        · rw [if_pos hr]
          exact ⟨t, ht⟩
        · rw [if_neg (by simpa using hr)]
          exact ⟨t, ht⟩

theorem phase1_fold_frame {wf : Nat → Bool} {es : ReqMap} {x : String}
    (h : ∀ e ∈ es, ¬ x = e.1) :
    ∀ acc : DeductAcc,
    getById (es.foldl (deductStep wf) acc).ms.store x =
        getById acc.ms.store x ∧
    (es.foldl (deductStep wf) acc).errors.filter
        (fun err => err.pid == x) =
      acc.errors.filter (fun err => err.pid == x) ∧
    (es.foldl (deductStep wf) acc).undo.filter (fun u => u.1 == x) =
      acc.undo.filter (fun u => u.1 == x) := by
  induction es with
  | nil => intro acc; exact ⟨rfl, rfl, rfl⟩
  | cons hd rest ih =>
      intro acc
      have hx : ¬ x = hd.1 := h hd (List.mem_cons_self hd rest)
      have hrest : ∀ e ∈ rest, ¬ x = e.1 :=
        fun e he => h e (List.mem_cons_of_mem hd he)
      rw [List.foldl_cons]
      obtain ⟨h1, h2, h3⟩ := ih hrest (deductStep wf acc hd)
      refine ⟨h1.trans (deductStep_store_ne hx), ?_, ?_⟩
      · rw [h2]
        obtain ⟨t, ht, hall⟩ := deductStep_errors_shape wf acc hd
        rw [ht, List.filter_append]
        have hnil : t.filter (fun err => err.pid == x) = [] := by
          rw [List.filter_eq_nil_iff]
          intro err herr
          rw [hall err herr, beq_iff_eq]
          exact fun hh => hx hh.symm
        rw [hnil, List.append_nil]
      · rw [h3]
        obtain ⟨t, ht, hall⟩ := deductStep_undo_shape wf acc hd
        rw [ht, List.filter_append]
        have hnil : t.filter (fun u => u.1 == x) = [] := by
          rw [List.filter_eq_nil_iff]
          intro u hu
          rw [hall u hu, beq_iff_eq]
          exact fun hh => hx hh.symm
        rw [hnil, List.append_nil]

theorem phase1_fold_errors_append (wf : Nat → Bool) (es : ReqMap) :
    ∀ acc : DeductAcc, ∃ t,
      (es.foldl (deductStep wf) acc).errors = acc.errors ++ t := by
  induction es with
  | nil => intro acc; exact ⟨[], by simp⟩
  | cons hd rest ih =>
      intro acc
      obtain ⟨t1, ht1, _⟩ := deductStep_errors_shape wf acc hd
      obtain ⟨t2, ht2⟩ := ih (deductStep wf acc hd)
      rw [List.foldl_cons]
      exact ⟨t1 ++ t2, by rw [ht2, ht1, List.append_assoc]⟩

theorem phase1_fold_log_append (wf : Nat → Bool) (es : ReqMap) :
    ∀ acc : DeductAcc, ∃ t,
      (es.foldl (deductStep wf) acc).ms.log = acc.ms.log ++ t := by
  induction es with
  | nil => intro acc; exact ⟨[], by simp⟩
  | cons hd rest ih =>
      intro acc
      obtain ⟨t1, ht1⟩ := deductStep_log_append wf acc hd
      obtain ⟨t2, ht2⟩ := ih (deductStep wf acc hd)
      rw [List.foldl_cons]
      exact ⟨t1 ++ t2, by rw [ht2, ht1, List.append_assoc]⟩

/-! ## Per-entry behaviour of the deduction loop -/

theorem deductStep_errors_filter_ne {wf : Nat → Bool} {acc : DeductAcc}
    {hd : String × Product × Int} {x : String} (hx : ¬ x = hd.1) :
    (deductStep wf acc hd).errors.filter (fun err => err.pid == x) =
      acc.errors.filter (fun err => err.pid == x) := by
  obtain ⟨t, ht, hall⟩ := deductStep_errors_shape wf acc hd
  rw [ht, List.filter_append]
  have hnil : t.filter (fun err => err.pid == x) = [] := by
    rw [List.filter_eq_nil_iff]
    intro err herr
    rw [hall err herr, beq_iff_eq]
    exact fun hh => hx hh.symm
  rw [hnil, List.append_nil]

theorem deductStep_undo_filter_ne {wf : Nat → Bool} {acc : DeductAcc}
    {hd : String × Product × Int} {x : String} (hx : ¬ x = hd.1) :
    (deductStep wf acc hd).undo.filter (fun u => u.1 == x) =
      acc.undo.filter (fun u => u.1 == x) := by
  obtain ⟨t, ht, hall⟩ := deductStep_undo_shape wf acc hd
  rw [ht, List.filter_append]
  have hnil : t.filter (fun u => u.1 == x) = [] := by
    rw [List.filter_eq_nil_iff]
    intro u hu
    rw [hall u hu, beq_iff_eq]
    exact fun hh => hx hh.symm
  rw [hnil, List.append_nil]

theorem phase1_insufficient (wf : Nat → Bool)
    {e : String × Product × Int} {latest : Product} :
    ∀ (es : ReqMap), ((es.map (fun e2 => e2.1)).Nodup) → e ∈ es →
    ∀ acc : DeductAcc, getById acc.ms.store e.1 = some latest →
    latest.stock_quantity < e.2.2 →
    getById (es.foldl (deductStep wf) acc).ms.store e.1 = some latest ∧
    (es.foldl (deductStep wf) acc).errors.filter
        (fun err => err.pid == e.1) =
      acc.errors.filter (fun err => err.pid == e.1) ++
        [.insufficient e.1 e.2.1.name e.2.2 latest.stock_quantity] ∧
    (es.foldl (deductStep wf) acc).undo.filter (fun u => u.1 == e.1) =
      acc.undo.filter (fun u => u.1 == e.1) := by
  intro es
  induction es with
  | nil => intro _ hmem; cases hmem
  | cons hd rest ih =>
      intro hnd hmem acc hget hlt
      rw [List.map_cons, List.nodup_cons] at hnd
      rw [List.foldl_cons]
      rcases List.mem_cons.mp hmem with heq | hr
      · subst heq
        have hstep := deductStep_insufficient wf hget (by omega)
        rw [hstep]
        have hfr : ∀ e' ∈ rest, ¬ e.1 = e'.1 := by
          intro e' he' hh
          exact hnd.1 (hh ▸ List.mem_map.mpr ⟨e', he', rfl⟩)
        obtain ⟨f1, f2, f3⟩ := phase1_fold_frame hfr
          { acc with errors := acc.errors ++
              [.insufficient e.1 e.2.1.name e.2.2 latest.stock_quantity] }
        refine ⟨f1.trans hget, ?_, f3⟩
        rw [f2]
        show (acc.errors ++ _).filter _ = _
        rw [List.filter_append]
        have hkeep : ([StockError.insufficient e.1 e.2.1.name e.2.2
            latest.stock_quantity].filter (fun err => err.pid == e.1)) =
            [StockError.insufficient e.1 e.2.1.name e.2.2
              latest.stock_quantity] := by
          simp [StockError.pid]
        rw [hkeep]
      · have hne : ¬ e.1 = hd.1 := by
          intro hh
          exact hnd.1 (hh ▸ List.mem_map.mpr ⟨e, hr, rfl⟩)
        have hget' : getById (deductStep wf acc hd).ms.store e.1 =
            some latest := by
          rw [deductStep_store_ne hne]
          exact hget
        obtain ⟨g1, g2, g3⟩ := ih hnd.2 hr (deductStep wf acc hd) hget' hlt
        refine ⟨g1, ?_, ?_⟩
        · rw [g2, deductStep_errors_filter_ne hne]
        · rw [g3, deductStep_undo_filter_ne hne]

theorem phase1_success (wf : Nat → Bool) {e : String × Product × Int} :
    ∀ (es : ReqMap), ((es.map (fun e2 => e2.1)).Nodup) → e ∈ es →
    ∀ acc : DeductAcc,
    (es.foldl (deductStep wf) acc).errors = acc.errors →
    ∃ latest, getById acc.ms.store e.1 = some latest ∧
      e.2.2 ≤ latest.stock_quantity ∧
      getById (es.foldl (deductStep wf) acc).ms.store e.1 =
        some { latest with
          stock_quantity := latest.stock_quantity - e.2.2 } := by
  intro es
  induction es with
  | nil => intro _ hmem; cases hmem
  | cons hd rest ih =>
      intro hnd hmem acc herr
      rw [List.map_cons, List.nodup_cons] at hnd
      rw [List.foldl_cons] at herr ⊢
      obtain ⟨t1, ht1, _⟩ := deductStep_errors_shape wf acc hd
      obtain ⟨t2, ht2⟩ := phase1_fold_errors_append wf rest
        (deductStep wf acc hd)
      have hnil : t1 ++ t2 = [] := by
        have : acc.errors ++ (t1 ++ t2) = acc.errors ++ [] := by
          rw [← List.append_assoc, ← ht1, ← ht2, herr, List.append_nil]
        exact List.append_cancel_left this
      have ht1nil : t1 = [] := (List.append_eq_nil.mp hnil).1
      have ht2nil : t2 = [] := (List.append_eq_nil.mp hnil).2
      have hstep_err : (deductStep wf acc hd).errors = acc.errors := by
        rw [ht1, ht1nil, List.append_nil]
      have hfold_err : (rest.foldl (deductStep wf)
          (deductStep wf acc hd)).errors =
          (deductStep wf acc hd).errors := by
        rw [ht2, ht2nil, List.append_nil]
      -- the step on `hd` must have taken the successful-write path
      cases hget : getById acc.ms.store hd.1 with
      | none =>
          exfalso
          have hbad : (deductStep wf acc hd).errors =
              acc.errors ++ [.updateFailed hd.1 hd.2.1.name] := by
            unfold deductStep
            rw [hget]
          rw [hstep_err] at hbad
          simp at hbad
      | some l =>
          by_cases hlt : l.stock_quantity - hd.2.2 < 0
          · exfalso
            have hbad : (deductStep wf acc hd).errors = acc.errors ++
                [.insufficient hd.1 hd.2.1.name hd.2.2 l.stock_quantity] := by
              rw [deductStep_insufficient wf hget hlt]
            rw [hstep_err] at hbad
            simp at hbad
          · by_cases hok : (updateStock wf acc.ms hd.1
                (l.stock_quantity - hd.2.2)).1 = true
            · have hms : (deductStep wf acc hd).ms =
                  ⟨setStock acc.ms.store hd.1
                    (max 0 (l.stock_quantity - hd.2.2)),
                   acc.ms.wcount + 1,
                   acc.ms.log ++
                     [(hd.1, max 0 (l.stock_quantity - hd.2.2))]⟩ := by
                unfold deductStep
                simp only [hget]
                rw [if_neg hlt, if_pos hok, updateStock_true hok]
              have hmax : max 0 (l.stock_quantity - hd.2.2) =
                  l.stock_quantity - hd.2.2 := by omega
              rcases List.mem_cons.mp hmem with heq | hr
              · subst heq
                refine ⟨l, hget, by omega, ?_⟩
                have hfr : ∀ e' ∈ rest, ¬ e.1 = e'.1 := by
                  intro e' he' hh
                  exact hnd.1 (hh ▸ List.mem_map.mpr ⟨e', he', rfl⟩)
                obtain ⟨f1, _, _⟩ := phase1_fold_frame hfr
                  (deductStep wf acc e)
                rw [f1, hms, hmax]
                show getById (setStock acc.ms.store e.1
                  (l.stock_quantity - e.2.2)) e.1 = _
                rw [getById_setStock_self, hget]
                rfl
              · have hne : ¬ e.1 = hd.1 := by
                  intro hh
                  exact hnd.1 (hh ▸ List.mem_map.mpr ⟨e, hr, rfl⟩)
                obtain ⟨latest, hg', hle, hfin⟩ :=
                  ih hnd.2 hr (deductStep wf acc hd) hfold_err
                refine ⟨latest, ?_, hle, hfin⟩
                rw [deductStep_store_ne hne] at hg'
                exact hg'
            · exfalso
              have hbad : (deductStep wf acc hd).errors = acc.errors ++
                  [.updateFailed hd.1 hd.2.1.name] := by
                unfold deductStep
                simp only [hget]
                rw [if_neg hlt, if_neg (by simpa using hok)]
              rw [hstep_err] at hbad
              simp at hbad

theorem phase1_log_mem {wf : Nat → Bool} (hwfall : ∀ n, wf n = false)
    {e : String × Product × Int} {l : Product} :
    ∀ (es : ReqMap), ((es.map (fun e2 => e2.1)).Nodup) → e ∈ es →
    ∀ acc : DeductAcc, getById acc.ms.store e.1 = some l →
    e.2.2 ≤ l.stock_quantity →
    (e.1, l.stock_quantity - e.2.2) ∈
      (es.foldl (deductStep wf) acc).ms.log := by
  intro es
  induction es with
  | nil => intro _ hmem; cases hmem
  | cons hd rest ih =>
      intro hnd hmem acc hget hle
      rw [List.map_cons, List.nodup_cons] at hnd
      rw [List.foldl_cons]
      rcases List.mem_cons.mp hmem with heq | hr
      · subst heq
        have hstep := deductStep_ok hget (by omega) (hwfall _)
        obtain ⟨t, ht⟩ := phase1_fold_log_append wf rest
          (deductStep wf acc e)
        rw [ht, hstep]
        show (e.1, l.stock_quantity - e.2.2) ∈
          (acc.ms.log ++ [(e.1, l.stock_quantity - e.2.2)]) ++ t
        exact List.mem_append_left t
          (List.mem_append_right acc.ms.log (List.mem_singleton.mpr rfl))
      · have hne : ¬ e.1 = hd.1 := by
          intro hh
          exact hnd.1 (hh ▸ List.mem_map.mpr ⟨e, hr, rfl⟩)
        have hget' : getById (deductStep wf acc hd).ms.store e.1 =
            some l := by
          rw [deductStep_store_ne hne]
          exact hget
        exact ih hnd.2 hr (deductStep wf acc hd) hget' hle

/-! ## Undo list, rollback and restore lemmas -/

/-- The undo record `(productId, previousStock)` pushed for a
requirement entry when its deduction reaches the write call: the product
must exist and have sufficient stock; whether the write itself then
succeeds does not matter, because the push precedes the write. -/
def reachedWrite (s : Store) (e : String × Product × Int) :
    Option (String × Int) :=
  match getById s e.1 with
  | some l =>
      if l.stock_quantity - e.2.2 < 0 then none
      else some (e.1, l.stock_quantity)
  | none => none

theorem phase1_undo_char {wf : Nat → Bool} {s : Store} :
    ∀ (es : ReqMap), ((es.map (fun e2 => e2.1)).Nodup) →
    ∀ acc : DeductAcc,
    (∀ e ∈ es, getById acc.ms.store e.1 = getById s e.1) →
    (es.foldl (deductStep wf) acc).undo =
      acc.undo ++ es.filterMap (reachedWrite s) := by
  intro es
  induction es with
  | nil => intro _ acc _; simp
  | cons hd rest ih =>
      intro hnd acc hagree
      rw [List.map_cons, List.nodup_cons] at hnd
      rw [List.foldl_cons, List.filterMap_cons]
      have hhd := hagree hd (List.mem_cons_self hd rest)
      have hagree_rest : ∀ e ∈ rest,
          getById (deductStep wf acc hd).ms.store e.1 = getById s e.1 := by
        intro e he
        have hne : ¬ e.1 = hd.1 := by
          intro hh
          exact hnd.1 (hh ▸ List.mem_map.mpr ⟨e, he, rfl⟩)
        rw [deductStep_store_ne hne]
        exact hagree e (List.mem_cons_of_mem hd he)
      cases hg : getById s hd.1 with
      | none =>
          have hget : getById acc.ms.store hd.1 = none := hhd.trans hg
          have hstep : deductStep wf acc hd =
              { acc with errors := acc.errors ++
                  [.updateFailed hd.1 hd.2.1.name] } := by
            unfold deductStep
            rw [hget]
          rw [ih hnd.2 _ hagree_rest, hstep]
          show acc.undo ++ _ = acc.undo ++ _
          simp only [reachedWrite, hg]
      | some l =>
          have hget : getById acc.ms.store hd.1 = some l := hhd.trans hg
          by_cases hlt : l.stock_quantity - hd.2.2 < 0
          · have hstep := deductStep_insufficient wf hget hlt
            rw [ih hnd.2 _ hagree_rest, hstep]
            show acc.undo ++ _ = acc.undo ++ _
            simp only [reachedWrite, hg, if_pos hlt]
          · have hundo : (deductStep wf acc hd).undo =
                acc.undo ++ [(hd.1, l.stock_quantity)] := by
              unfold deductStep
              simp only [hget]
              rw [if_neg hlt]
              split <;> rfl
            rw [ih hnd.2 _ hagree_rest, hundo]
            simp only [reachedWrite, hg, if_neg hlt]
            rw [List.append_assoc]
            rfl

theorem rollbackStep_store_cases (wf : Nat → Bool) (ms : MState)
    (u : String × Int) :
    (rollbackStep wf ms u).store = ms.store ∨
    (rollbackStep wf ms u).store = setStock ms.store u.1 (max 0 u.2) :=
  updateStock_store_cases wf ms u.1 u.2

theorem rollback_fold_frame {wf : Nat → Bool} {x : String} :
    ∀ (undo : List (String × Int)) (ms : MState),
    (∀ u ∈ undo, ¬ x = u.1) →
    getById (undo.foldl (rollbackStep wf) ms).store x =
      getById ms.store x := by
  intro undo
  induction undo with
  | nil => intro ms _; rfl
  | cons u rest ih =>
      intro ms h
      rw [List.foldl_cons]
      have hx : ¬ x = u.1 := h u (List.mem_cons_self u rest)
      have hrest : ∀ v ∈ rest, ¬ x = v.1 :=
        fun v hv => h v (List.mem_cons_of_mem u hv)
      rw [ih _ hrest]
      rcases rollbackStep_store_cases wf ms u with hc | hc
      · rw [hc]
      · rw [hc, getById_setStock_ne hx]

theorem rollback_fold_log {wf : Nat → Bool} :
    ∀ (undo : List (String × Int)) (ms : MState),
    (∀ n, ms.wcount ≤ n → wf n = false) →
    (∀ u ∈ undo, (ms.store.products.any (fun p => p.id == u.1)) = true) →
    (undo.foldl (rollbackStep wf) ms).log =
      ms.log ++ undo.map (fun u => (u.1, max 0 u.2)) := by
  intro undo
  induction undo with
  | nil => intro ms _ _; simp
  | cons u rest ih =>
      intro ms hwf hpres
      rw [List.foldl_cons, List.map_cons]
      have hu := hpres u (List.mem_cons_self u rest)
      have hsome : (getById ms.store u.1).isSome := by
        unfold getById
        rw [List.find?_isSome]
        obtain ⟨p, hp, hpe⟩ := List.any_eq_true.mp hu
        exact ⟨p, hp, hpe⟩
      obtain ⟨p, hp⟩ := Option.isSome_iff_exists.mp hsome
      have hstep := rollbackStep_ok hp (hwf ms.wcount (Nat.le_refl _))
      rw [hstep]
      rw [ih _ (fun n hn => hwf n (Nat.le_of_succ_le hn)) ?_]
      · rw [List.append_assoc]
        rfl
      · intro v hv
        show ((setStock ms.store u.1 (max 0 u.2)).products.any
          (fun p => p.id == v.1)) = true
        rw [any_setStock]
        exact hpres v (List.mem_cons_of_mem u hv)

/-! ## Restore loop lemmas -/

theorem restoreStep_ms_cases (wf : Nat → Bool)
    (acc : MState × List StockError) (e : String × Product × Int) :
    (restoreStep wf acc e).1 = acc.1 ∨
    ∃ q, (restoreStep wf acc e).1 = (updateStock wf acc.1 e.1 q).2 := by
  unfold restoreStep
  cases hget : getById acc.1.store e.1 with
  | none => left; rfl
  | some l =>
      simp only
      by_cases hr : (updateStock wf acc.1 e.1
          (l.stock_quantity + e.2.2)).1 = true
      · right
        refine ⟨l.stock_quantity + e.2.2, ?_⟩
        rw [if_pos hr]
      · right
        refine ⟨l.stock_quantity + e.2.2, ?_⟩
        rw [if_neg (by simpa using hr)]

theorem restoreStep_store_ne {wf : Nat → Bool}
    {acc : MState × List StockError} {e : String × Product × Int}
    {x : String} (h : ¬ x = e.1) :
    getById (restoreStep wf acc e).1.store x = getById acc.1.store x := by
  rcases restoreStep_ms_cases wf acc e with hc | ⟨q, hc⟩
  · rw [hc]
  · rw [hc]
    rcases updateStock_store_cases wf acc.1 e.1 q with hs | hs
    · rw [hs]
    · rw [hs, getById_setStock_ne h]

theorem restore_fold_frame {wf : Nat → Bool} {x : String} :
    ∀ (es : ReqMap) (acc : MState × List StockError),
    (∀ e ∈ es, ¬ x = e.1) →
    getById (es.foldl (restoreStep wf) acc).1.store x =
      getById acc.1.store x := by
  intro es
  induction es with
  | nil => intro acc _; rfl
  | cons hd rest ih =>
      intro acc h
      rw [List.foldl_cons]
      have hx : ¬ x = hd.1 := h hd (List.mem_cons_self hd rest)
      have hrest : ∀ e ∈ rest, ¬ x = e.1 :=
        fun e he => h e (List.mem_cons_of_mem hd he)
      rw [ih _ hrest, restoreStep_store_ne hx]

theorem restore_entry (wf : Nat → Bool) (hwfall : ∀ n, wf n = false)
    {e : String × Product × Int} {l : Product} :
    ∀ (es : ReqMap), ((es.map (fun e2 => e2.1)).Nodup) → e ∈ es →
    ∀ acc : MState × List StockError, getById acc.1.store e.1 = some l →
    getById (es.foldl (restoreStep wf) acc).1.store e.1 =
      some { l with
        stock_quantity := max 0 (l.stock_quantity + e.2.2) } := by
  intro es
  induction es with
  | nil => intro _ hmem; cases hmem
  | cons hd rest ih =>
      intro hnd hmem acc hget
      rw [List.map_cons, List.nodup_cons] at hnd
      rw [List.foldl_cons]
      rcases List.mem_cons.mp hmem with heq | hr
      · subst heq
        have hstep : (restoreStep wf acc e).1 =
            ⟨setStock acc.1.store e.1 (max 0 (l.stock_quantity + e.2.2)),
             acc.1.wcount + 1,
             acc.1.log ++ [(e.1, max 0 (l.stock_quantity + e.2.2))]⟩ := by
          unfold restoreStep
          simp only [hget]
          rw [updateStock_success (hwfall _) hget]
          simp
        have hfr : ∀ e' ∈ rest, ¬ e.1 = e'.1 := by
          intro e' he' hh
          exact hnd.1 (hh ▸ List.mem_map.mpr ⟨e', he', rfl⟩)
        rw [restore_fold_frame rest _ hfr, hstep]
        show getById (setStock acc.1.store e.1 _) e.1 = _
        rw [getById_setStock_self, hget]
        rfl
      · have hne : ¬ e.1 = hd.1 := by
          intro hh
          exact hnd.1 (hh ▸ List.mem_map.mpr ⟨e, hr, rfl⟩)
        have hget' : getById (restoreStep wf acc hd).1.store e.1 =
            some l := by
          rw [restoreStep_store_ne hne]
          exact hget
        exact ih hnd.2 hr (restoreStep wf acc hd) hget'

/-! ## Non-negative stock invariant (C7) -/

/-- Every product row in the store has non-negative stock. -/
def nonnegStore (s : Store) : Prop :=
  ∀ p ∈ s.products, 0 ≤ p.stock_quantity

theorem nonneg_setStock {s : Store} {x : String} {q : Int}
    (h : nonnegStore s) (hq : 0 ≤ q) : nonnegStore (setStock s x q) := by
  intro p hp
  unfold setStock at hp
  simp only [List.mem_map] at hp
  obtain ⟨p0, hp0, rfl⟩ := hp
  by_cases hid : p0.id = x
  · simp only [hid, beq_self_eq_true, if_true]
    exact hq
  · have : (p0.id == x) = false := by
      rw [Bool.eq_false_iff]
      intro hh
      exact hid (beq_iff_eq.mp hh)
    simp only [this, Bool.false_eq_true, if_false]
    exact h p0 hp0

theorem nonneg_updateStock {wf : Nat → Bool} {st : MState} {pid : String}
    {q : Int} (h : nonnegStore st.store) :
    nonnegStore (updateStock wf st pid q).2.store := by
  rcases updateStock_store_cases wf st pid q with hc | hc
  · rw [hc]; exact h
  · rw [hc]; exact nonneg_setStock h (le_max_left 0 q)

theorem deductStep_ms_cases (wf : Nat → Bool) (acc : DeductAcc)
    (e : String × Product × Int) :
    (deductStep wf acc e).ms = acc.ms ∨
    ∃ q, (deductStep wf acc e).ms = (updateStock wf acc.ms e.1 q).2 := by
  unfold deductStep
  cases hget : getById acc.ms.store e.1 with
  | none => left; rfl
  | some latest =>
      simp only
      by_cases hlt : latest.stock_quantity - e.2.2 < 0
      · rw [if_pos hlt]; left; rfl
      · rw [if_neg hlt]
        right
        refine ⟨latest.stock_quantity - e.2.2, ?_⟩
        split <;> rfl

theorem nonneg_deduct_fold {wf : Nat → Bool} :
    ∀ (es : ReqMap) (acc : DeductAcc), nonnegStore acc.ms.store →
    nonnegStore (es.foldl (deductStep wf) acc).ms.store := by
  intro es
  induction es with
  | nil => intro acc h; exact h
  | cons hd rest ih =>
      intro acc h
      rw [List.foldl_cons]
      refine ih _ ?_
      rcases deductStep_ms_cases wf acc hd with hc | ⟨q, hc⟩
      · rw [hc]; exact h
      · rw [hc]; exact nonneg_updateStock h

theorem nonneg_rollback_fold {wf : Nat → Bool} :
    ∀ (undo : List (String × Int)) (ms : MState), nonnegStore ms.store →
    nonnegStore (undo.foldl (rollbackStep wf) ms).store := by
  intro undo
  induction undo with
  | nil => intro ms h; exact h
  | cons u rest ih =>
      intro ms h
      rw [List.foldl_cons]
      exact ih _ (nonneg_updateStock h)

theorem nonneg_restore_fold {wf : Nat → Bool} :
    ∀ (es : ReqMap) (acc : MState × List StockError),
    nonnegStore acc.1.store →
    nonnegStore (es.foldl (restoreStep wf) acc).1.store := by
  intro es
  induction es with
  | nil => intro acc h; exact h
  | cons hd rest ih =>
      intro acc h
      rw [List.foldl_cons]
      refine ih _ ?_
      rcases restoreStep_ms_cases wf acc hd with hc | ⟨q, hc⟩
      · rw [hc]; exact h
      · rw [hc]; exact nonneg_updateStock h

/-- C7: `updateStock` clamps — a successful call writes exactly
`max 0 newQuantity` (and logs that value) — and consequently, starting
from a store with no negative stock, the store still has no negative
stock after any `updateStock` call, any `deductStockForPackaging` batch
(per-product writes and compensating rollback included) and any
`restoreStockForPackaging` batch. -/
theorem stock_never_negative (wf : Nat → Bool) (st : MState) (pid : String)
    (q : Int) (s : Store) (items : List PackagingItem)
    (hst : nonnegStore st.store) (hs : nonnegStore s) :
    ((updateStock wf st pid q).1 = true →
      getById (updateStock wf st pid q).2.store pid =
        (getById st.store pid).map
          (fun p => { p with stock_quantity := max 0 q }) ∧
      (updateStock wf st pid q).2.log = st.log ++ [(pid, max 0 q)]) ∧
    nonnegStore (updateStock wf st pid q).2.store ∧
    nonnegStore (deductStockForPackaging wf s items).ms.store ∧
    nonnegStore (restoreStockForPackaging wf s items).ms.store := by
  refine ⟨?_, nonneg_updateStock hst, ?_, ?_⟩
  · intro h
    rw [updateStock_true h]
    exact ⟨getById_setStock_self, rfl⟩
  · unfold deductStockForPackaging
    have hphase : nonnegStore (deductPhase1 wf s items).ms.store :=
      nonneg_deduct_fold _ _ hs
    by_cases hemp : (deductPhase1 wf s items).errors.isEmpty
    · rw [if_pos hemp]
      exact hphase
    · rw [if_neg hemp]
      exact nonneg_rollback_fold _ _ hphase
  · unfold restoreStockForPackaging
    exact nonneg_restore_fold _ _ hs

theorem stock_never_negative_witness :
    nonnegStore (⟨store0, 0, []⟩ : MState).store ∧ nonnegStore store0 ∧
    (((updateStock wfNone ⟨store0, 0, []⟩ "a" (-7)).1 = true →
      getById (updateStock wfNone ⟨store0, 0, []⟩ "a" (-7)).2.store "a" =
        (getById (⟨store0, 0, []⟩ : MState).store "a").map
          (fun p => { p with stock_quantity := max 0 (-7) }) ∧
      (updateStock wfNone ⟨store0, 0, []⟩ "a" (-7)).2.log =
        (⟨store0, 0, []⟩ : MState).log ++ [("a", max 0 (-7))]) ∧
    nonnegStore (updateStock wfNone ⟨store0, 0, []⟩ "a" (-7)).2.store ∧
    nonnegStore (deductStockForPackaging wfNone store0
      [itemA1, itemB1]).ms.store ∧
    nonnegStore (restoreStockForPackaging wfNone store0
      [itemA1, itemB1]).ms.store) := by
  refine ⟨by unfold nonnegStore; decide, by unfold nonnegStore; decide, ?_⟩
  exact stock_never_negative wfNone ⟨store0, 0, []⟩ "a" (-7) store0
    [itemA1, itemB1] (by unfold nonnegStore; decide)
    (by unfold nonnegStore; decide)

/-! ## Insufficient stock behaviour of deduct (C3) -/

theorem rollback_fold_log_append {wf : Nat → Bool} :
    ∀ (undo : List (String × Int)) (ms : MState),
    ∃ t, (undo.foldl (rollbackStep wf) ms).log = ms.log ++ t := by
  intro undo
  induction undo with
  | nil => intro ms; exact ⟨[], by simp⟩
  | cons u rest ih =>
      intro ms
      rw [List.foldl_cons]
      obtain ⟨t1, ht1⟩ := updateStock_log_append wf ms u.1 u.2
      obtain ⟨t2, ht2⟩ := ih (rollbackStep wf ms u)
      refine ⟨t1 ++ t2, ?_⟩
      rw [ht2]
      show (updateStock wf ms u.1 u.2).2.log ++ t2 = _
      rw [ht1, List.append_assoc]

/-- C3: when the aggregated requirement `r` for product `pid` strictly
exceeds its current stock, `deductStockForPackaging` (with no store
failures) returns `success = false`, leaves `pid`'s row completely
untouched (no partial write, no rollback write), records exactly one
insufficient-stock error for `pid` — naming the snapshot product and the
freshly fetched availability — and still processes every other product
of the batch: any other sufficiently stocked product still gets its
deduction write. -/
theorem deduct_insufficient_behaviour (s : Store)
    (items : List PackagingItem) (pid : String) (P : Product) (r : Int)
    (latest : Product)
    (hmem : (pid, P, r) ∈ calculateStockRequirements s items)
    (hget : getById s pid = some latest)
    (hlt : latest.stock_quantity < r) :
    (deductStockForPackaging wfNone s items).success = false ∧
    getById (deductStockForPackaging wfNone s items).ms.store pid =
      some latest ∧
    (deductStockForPackaging wfNone s items).errors.filter
        (fun err => err.pid == pid) =
      [.insufficient pid P.name r latest.stock_quantity] ∧
    (∀ e ∈ calculateStockRequirements s items, ¬ e.1 = pid →
      ∀ l, getById s e.1 = some l → e.2.2 ≤ l.stock_quantity →
        (e.1, l.stock_quantity - e.2.2) ∈
          (deductStockForPackaging wfNone s items).ms.log) := by
  have hnd := calcReq_nodup s items
  obtain ⟨p1store, p1err, p1undo⟩ :=
    phase1_insufficient wfNone (calculateStockRequirements s items) hnd
      hmem ⟨⟨s, 0, []⟩, [], []⟩ hget hlt
  have hphase : ∀ x, deductPhase1 wfNone s items = x →
      (calculateStockRequirements s items).foldl (deductStep wfNone)
        ⟨⟨s, 0, []⟩, [], []⟩ = x := fun x hx => hx
  have p1err' : (deductPhase1 wfNone s items).errors.filter
      (fun err => err.pid == pid) =
      [.insufficient pid P.name r latest.stock_quantity] := by
    unfold deductPhase1
    rw [p1err]
    rfl
  have p1undo' : (deductPhase1 wfNone s items).undo.filter
      (fun u => u.1 == pid) = [] := by
    unfold deductPhase1
    rw [p1undo]
    rfl
  have p1store' : getById (deductPhase1 wfNone s items).ms.store pid =
      some latest := p1store
  have herrne : ¬ (deductPhase1 wfNone s items).errors.isEmpty = true := by
    intro hemp
    rw [List.isEmpty_eq_true] at hemp
    rw [hemp] at p1err'
    cases p1err'
  have hres : deductStockForPackaging wfNone s items =
      ⟨deductRollback wfNone (deductPhase1 wfNone s items), false,
       (deductPhase1 wfNone s items).errors⟩ := by
    unfold deductStockForPackaging
    rw [if_neg herrne]
  rw [hres]
  have hnotin : ∀ u ∈ (deductPhase1 wfNone s items).undo, ¬ pid = u.1 := by
    intro u hu hh
    have : u ∈ (deductPhase1 wfNone s items).undo.filter
        (fun u => u.1 == pid) :=
      List.mem_filter.mpr ⟨hu, beq_iff_eq.mpr hh.symm⟩
    rw [p1undo'] at this
    cases this
  refine ⟨rfl, ?_, p1err', ?_⟩
  · show getById ((deductPhase1 wfNone s items).undo.foldl
      (rollbackStep wfNone) (deductPhase1 wfNone s items).ms).store pid = _
    rw [rollback_fold_frame _ _ hnotin]
    exact p1store'
  · intro e he hne l hgl hle
    have hlogmem : (e.1, l.stock_quantity - e.2.2) ∈
        (deductPhase1 wfNone s items).ms.log :=
      phase1_log_mem (fun _ => rfl) (calculateStockRequirements s items)
        hnd he ⟨⟨s, 0, []⟩, [], []⟩ hgl hle
    obtain ⟨t, ht⟩ := rollback_fold_log_append
      (deductPhase1 wfNone s items).undo (deductPhase1 wfNone s items).ms
    show (e.1, l.stock_quantity - e.2.2) ∈
      ((deductPhase1 wfNone s items).undo.foldl (rollbackStep wfNone)
        (deductPhase1 wfNone s items).ms).log
    rw [ht]
    exact List.mem_append_left t hlogmem

theorem deduct_insufficient_behaviour_witness :
    ((("c" : String), prodC, (3 : Int)) ∈ calculateStockRequirements store0
      [⟨"X", true, some [(prodA, 1), (prodC, 3)]⟩]) ∧
    getById store0 "c" = some prodC ∧
    prodC.stock_quantity < 3 ∧
    ((deductStockForPackaging wfNone store0
        [⟨"X", true, some [(prodA, 1), (prodC, 3)]⟩]).success = false ∧
      getById (deductStockForPackaging wfNone store0
        [⟨"X", true, some [(prodA, 1), (prodC, 3)]⟩]).ms.store "c" =
        some prodC ∧
      (deductStockForPackaging wfNone store0
        [⟨"X", true, some [(prodA, 1), (prodC, 3)]⟩]).errors.filter
          (fun err => err.pid == "c") =
        [.insufficient "c" prodC.name 3 prodC.stock_quantity] ∧
      (∀ e ∈ calculateStockRequirements store0
          [⟨"X", true, some [(prodA, 1), (prodC, 3)]⟩], ¬ e.1 = "c" →
        ∀ l, getById store0 e.1 = some l → e.2.2 ≤ l.stock_quantity →
          (e.1, l.stock_quantity - e.2.2) ∈
            (deductStockForPackaging wfNone store0
              [⟨"X", true, some [(prodA, 1), (prodC, 3)]⟩]).ms.log)) := by
  refine ⟨by decide, by decide, by decide, ?_⟩
  exact deduct_insufficient_behaviour store0
    [⟨"X", true, some [(prodA, 1), (prodC, 3)]⟩] "c" prodC 3 prodC
    (by decide) (by decide) (by decide)

/-! ## Rollback scope (C8) -/

/-- Oracle failing exactly the second write call of a batch. -/
def wfC8 : Nat → Bool := fun n => n == 1

/-- Fixture bundle expanding to one unit of A and one unit of B. -/
def bundleAB : PackagingItem :=
  { product_barcode := "X", is_bundle := true,
    bundle_components := some [(prodA, 1), (prodB, 1)] }

theorem deduct_fold_any {wf : Nat → Bool} {x : String} :
    ∀ (es : ReqMap) (acc : DeductAcc),
    ((es.foldl (deductStep wf) acc).ms.store.products.any
      (fun p => p.id == x)) =
    (acc.ms.store.products.any (fun p => p.id == x)) := by
  intro es
  induction es with
  | nil => intro acc; rfl
  | cons hd rest ih =>
      intro acc
      rw [List.foldl_cons, ih]
      rcases deductStep_store_cases wf acc hd with hc | ⟨q, hc⟩
      · rw [hc]
      · rw [hc, any_setStock]

theorem reachedWrite_eq_some {s : Store} {e : String × Product × Int}
    {u : String × Int} (h : reachedWrite s e = some u) :
    ∃ l, getById s e.1 = some l ∧ ¬ l.stock_quantity - e.2.2 < 0 ∧
      u = (e.1, l.stock_quantity) := by
  unfold reachedWrite at h
  cases hg : getById s e.1 with
  | none => rw [hg] at h; cases h
  | some l =>
      simp only [hg] at h
      by_cases hlt : l.stock_quantity - e.2.2 < 0
      · rw [if_pos hlt] at h; cases h
      · rw [if_neg hlt] at h
        injection h with h'
        exact ⟨l, rfl, hlt, h'.symm⟩

/-- C8 (counterexample to the claim as stated): with stock 5 for both A
and B, requirement 1 each, and a store failure on the second write, B's
own deduction write fails (its error is recorded), yet the rollback
phase still writes B — the log entries appended by the rollback are
writes to A and then to B, because the undo record is pushed before the
write is attempted. -/
theorem deduct_rollback_scope_counterexample :
    (deductPhase1 wfC8 store0 [bundleAB]).errors =
      [.updateFailed "b" "Beet"] ∧
    (deductPhase1 wfC8 store0 [bundleAB]).ms.log = [("a", 4)] ∧
    ((deductStockForPackaging wfC8 store0 [bundleAB]).ms.log.drop
      ((deductPhase1 wfC8 store0 [bundleAB]).ms.log.length)).map
        Prod.fst = ["a", "b"] ∧
    (deductStockForPackaging wfC8 store0 [bundleAB]).success = false := by
  decide

/-- C8 (amended): when the error list is non-empty after the
per-product loop, the undo list consists of exactly the entries that
passed the insufficiency check and reached the write call — including a
product whose own write then failed, since the undo record is pushed
before the write — and the rollback phase walks exactly that list,
writing back each recorded `previousStock`; a product skipped for
insufficient stock never appears on the undo list and is therefore
never written during rollback. -/
theorem deduct_rollback_scope (wf : Nat → Bool) (s : Store)
    (items : List PackagingItem) (hnn : nonnegStore s)
    (hwfr : ∀ n, (deductPhase1 wf s items).ms.wcount ≤ n → wf n = false)
    (herr : ¬ (deductPhase1 wf s items).errors.isEmpty = true) :
    (deductPhase1 wf s items).undo =
      (calculateStockRequirements s items).filterMap (reachedWrite s) ∧
    (∀ e ∈ calculateStockRequirements s items, ∀ l,
      getById s e.1 = some l → l.stock_quantity < e.2.2 →
      ∀ v, (e.1, v) ∉ (deductPhase1 wf s items).undo) ∧
    (deductStockForPackaging wf s items).ms.log =
      (deductPhase1 wf s items).ms.log ++
        (deductPhase1 wf s items).undo := by
  have hnd := calcReq_nodup s items
  have hchar : (deductPhase1 wf s items).undo =
      (calculateStockRequirements s items).filterMap (reachedWrite s) := by
    unfold deductPhase1
    rw [phase1_undo_char (calculateStockRequirements s items) hnd
      ⟨⟨s, 0, []⟩, [], []⟩ (fun e _ => rfl)]
    rw [List.nil_append]
  refine ⟨hchar, ?_, ?_⟩
  · intro e he l hget hlt v hv
    rw [hchar] at hv
    obtain ⟨e', he', hf⟩ := List.mem_filterMap.mp hv
    obtain ⟨l', hg', hlt', hu⟩ := reachedWrite_eq_some hf
    have hkey : e'.1 = e.1 := (congrArg Prod.fst hu).symm
    have hee : e' = e := List.inj_on_of_nodup_map hnd he' he hkey
    subst hee
    rw [hget] at hg'
    injection hg' with hl
    subst hl
    omega
  · have hres : deductStockForPackaging wf s items =
        ⟨deductRollback wf (deductPhase1 wf s items), false,
         (deductPhase1 wf s items).errors⟩ := by
      unfold deductStockForPackaging
      rw [if_neg herr]
    rw [hres]
    have hpres : ∀ u ∈ (deductPhase1 wf s items).undo,
        ((deductPhase1 wf s items).ms.store.products.any
          (fun p => p.id == u.1)) = true := by
      intro u hu
      rw [hchar] at hu
      obtain ⟨e', _, hf⟩ := List.mem_filterMap.mp hu
      obtain ⟨l', hg', _, hu'⟩ := reachedWrite_eq_some hf
      have hkey : u.1 = e'.1 := congrArg Prod.fst hu'
      have : deductPhase1 wf s items =
          (calculateStockRequirements s items).foldl (deductStep wf)
            ⟨⟨s, 0, []⟩, [], []⟩ := rfl
      rw [this, deduct_fold_any, hkey]
      exact any_id_of_getById hg'
    have hmap : (deductPhase1 wf s items).undo.map
        (fun u => (u.1, max 0 u.2)) = (deductPhase1 wf s items).undo := by
      have hpt : ∀ u ∈ (deductPhase1 wf s items).undo,
          ((u.1 : String), max 0 u.2) = u := by
        intro u hu
        rw [hchar] at hu
        obtain ⟨e', _, hf⟩ := List.mem_filterMap.mp hu
        obtain ⟨l', hg', _, hu'⟩ := reachedWrite_eq_some hf
        have h0 : 0 ≤ l'.stock_quantity := hnn l' (getById_mem hg')
        rw [hu']
        show ((e'.1 : String), max 0 l'.stock_quantity) = _
        rw [max_eq_right h0]
      calc (deductPhase1 wf s items).undo.map (fun u => (u.1, max 0 u.2))
          = (deductPhase1 wf s items).undo.map (fun u => u) :=
            List.map_congr_left hpt
        _ = (deductPhase1 wf s items).undo := List.map_id' _
    show (deductRollback wf (deductPhase1 wf s items)).log = _
    unfold deductRollback
    rw [rollback_fold_log _ _ hwfr hpres, hmap]

theorem deduct_rollback_scope_witness :
    nonnegStore store0 ∧
    (∀ n, (deductPhase1 wfNone store0
      [⟨"X", true, some [(prodA, 1), (prodC, 3)]⟩]).ms.wcount ≤ n →
      wfNone n = false) ∧
    ¬ (deductPhase1 wfNone store0
      [⟨"X", true, some [(prodA, 1), (prodC, 3)]⟩]).errors.isEmpty = true ∧
    ((deductPhase1 wfNone store0
        [⟨"X", true, some [(prodA, 1), (prodC, 3)]⟩]).undo =
      (calculateStockRequirements store0
        [⟨"X", true, some [(prodA, 1), (prodC, 3)]⟩]).filterMap
        (reachedWrite store0) ∧
    (∀ e ∈ calculateStockRequirements store0
        [⟨"X", true, some [(prodA, 1), (prodC, 3)]⟩], ∀ l,
      getById store0 e.1 = some l → l.stock_quantity < e.2.2 →
      ∀ v, (e.1, v) ∉ (deductPhase1 wfNone store0
        [⟨"X", true, some [(prodA, 1), (prodC, 3)]⟩]).undo) ∧
    (deductStockForPackaging wfNone store0
        [⟨"X", true, some [(prodA, 1), (prodC, 3)]⟩]).ms.log =
      (deductPhase1 wfNone store0
        [⟨"X", true, some [(prodA, 1), (prodC, 3)]⟩]).ms.log ++
        (deductPhase1 wfNone store0
          [⟨"X", true, some [(prodA, 1), (prodC, 3)]⟩]).undo) := by
  refine ⟨by unfold nonnegStore; decide, fun n _ => rfl, by decide, ?_⟩
  exact deduct_rollback_scope wfNone store0
    [⟨"X", true, some [(prodA, 1), (prodC, 3)]⟩]
    (by unfold nonnegStore; decide) (fun n _ => rfl) (by decide)

/-! ## Store-shape preservation and round trip (C2) -/

/-- Two product rows agreeing on identity and barcode (stock and other
mutable fields may differ). -/
def productsMatch (p q : Product) : Prop :=
  p.id = q.id ∧ p.barcode = q.barcode

/-- Two stores whose product lists agree pointwise on id and barcode. -/
def storesMatch (s s' : Store) : Prop :=
  List.Forall₂ productsMatch s.products s'.products

theorem forall₂_match_refl : ∀ l : List Product,
    List.Forall₂ productsMatch l l := by
  intro l
  induction l with
  | nil => exact List.Forall₂.nil
  | cons h t ih => exact List.Forall₂.cons ⟨rfl, rfl⟩ ih

theorem storesMatch_refl (s : Store) : storesMatch s s :=
  forall₂_match_refl s.products

theorem forall₂_match_setStock {x : String} {q : Int}
    {l₁ l₂ : List Product} (h : List.Forall₂ productsMatch l₁ l₂) :
    List.Forall₂ productsMatch l₁
      (l₂.map (fun p =>
        if p.id == x then { p with stock_quantity := q } else p)) := by
  induction h with
  | nil => exact List.Forall₂.nil
  | cons hpq hrest ih =>
      rw [List.map_cons]
      refine List.Forall₂.cons ?_ ih
      rename_i a c _ _
      have hid : ∀ (d : Product),
          ((if d.id == x then { d with stock_quantity := q } else d) :
            Product).id = d.id := by
        intro d
        by_cases hc : d.id = x
        · simp [hc]
        · simp [hc]
      have hbar : ∀ (d : Product),
          ((if d.id == x then { d with stock_quantity := q } else d) :
            Product).barcode = d.barcode := by
        intro d
        by_cases hc : d.id = x
        · simp [hc]
        · simp [hc]
      exact ⟨hpq.1.trans (hid c).symm, hpq.2.trans (hbar c).symm⟩

theorem storesMatch_setStock {s s' : Store} {x : String} {q : Int}
    (h : storesMatch s s') : storesMatch s (setStock s' x q) :=
  forall₂_match_setStock h

theorem find?_barcode_match {b : String} :
    ∀ {l₁ l₂ : List Product}, List.Forall₂ productsMatch l₁ l₂ →
    (l₁.find? (fun p => p.barcode == b)).map (fun p => p.id) =
      (l₂.find? (fun p => p.barcode == b)).map (fun p => p.id) := by
  intro l₁ l₂ h
  induction h with
  | nil => rfl
  | @cons a c t₁ t₂ hpq hrest ih =>
      by_cases hab : a.barcode = b
      · have hcb : c.barcode = b := hpq.2 ▸ hab
        rw [List.find?_cons_of_pos (p := fun p => p.barcode == b) t₁
            (beq_iff_eq.mpr hab),
          List.find?_cons_of_pos (p := fun p => p.barcode == b) t₂
            (beq_iff_eq.mpr hcb)]
        simp only [Option.map_some']
        rw [hpq.1]
      · have hcb : ¬ c.barcode = b := fun hh => hab (hpq.2 ▸ hh)
        rw [List.find?_cons_of_neg (p := fun p => p.barcode == b) t₁
            (by simpa [beq_iff_eq] using hab),
          List.find?_cons_of_neg (p := fun p => p.barcode == b) t₂
            (by simpa [beq_iff_eq] using hcb)]
        exact ih

theorem getByBarcode_match {s s' : Store} (h : storesMatch s s')
    (b : String) :
    (getByBarcode s b).map (fun p => p.id) =
      (getByBarcode s' b).map (fun p => p.id) :=
  find?_barcode_match h

/-- The observable shape of a requirement entry: key and required
quantity (the snapshot may differ between stores). -/
def keyReq (e : String × Product × Int) : String × Int := (e.1, e.2.2)

theorem addReq_keyReq {m m' : ReqMap} {pid : String} {q : Int}
    (p p' : Product) (h : m.map keyReq = m'.map keyReq) :
    (addReq m pid p q).map keyReq = (addReq m' pid p' q).map keyReq := by
  have hkeys : m.map (fun e => e.1) = m'.map (fun e => e.1) := by
    have h2 := congrArg (List.map Prod.fst) h
    rw [List.map_map, List.map_map] at h2
    exact h2
  have hany : (m.any (fun e => e.1 == pid)) =
      (m'.any (fun e => e.1 == pid)) := by
    rw [Bool.eq_iff_iff, List.any_eq_true, List.any_eq_true]
    constructor
    · rintro ⟨e, he, hp⟩
      have hm : e.1 ∈ m'.map (fun e => e.1) := by
        rw [← hkeys]
        exact List.mem_map_of_mem _ he
      obtain ⟨e', he', hk⟩ := List.mem_map.mp hm
      refine ⟨e', he', ?_⟩
      rw [hk]
      exact hp
    · rintro ⟨e, he, hp⟩
      have hm : e.1 ∈ m.map (fun e => e.1) := by
        rw [hkeys]
        exact List.mem_map_of_mem _ he
      obtain ⟨e', he', hk⟩ := List.mem_map.mp hm
      refine ⟨e', he', ?_⟩
      rw [hk]
      exact hp
  unfold addReq
  rw [hany]
  by_cases hc : (m'.any (fun e => e.1 == pid)) = true
  · rw [if_pos hc, if_pos hc]
    have hcomp : ∀ (mm : ReqMap),
        (mm.map (fun e =>
          if e.1 == pid then (e.1, e.2.1, e.2.2 + q) else e)).map keyReq =
        (mm.map keyReq).map (fun k =>
          if k.1 == pid then (k.1, k.2 + q) else k) := by
      intro mm
      rw [List.map_map, List.map_map]
      refine List.map_congr_left (fun e _ => ?_)
      show keyReq (if e.1 == pid then (e.1, e.2.1, e.2.2 + q) else e) =
        if (e.1 == pid) = true then (e.1, e.2.2 + q) else (e.1, e.2.2)
      by_cases he : (e.1 == pid) = true
      · rw [he, if_pos rfl, if_pos rfl]
        rfl
      · rw [if_neg he, if_neg he]
        rfl
    rw [hcomp m, hcomp m', h]
  · rw [if_neg hc, if_neg hc, List.map_append, List.map_append, h]
    rfl

theorem calcBarcode_keyReq {s s' : Store} {m m' : ReqMap}
    (hs : storesMatch s s') (h : m.map keyReq = m'.map keyReq)
    (bar : String) :
    (match getByBarcode s bar with
      | some p => addReq m p.id p 1
      | none => m).map keyReq =
    (match getByBarcode s' bar with
      | some p => addReq m' p.id p 1
      | none => m').map keyReq := by
  have hbc := getByBarcode_match hs bar
  cases hg : getByBarcode s bar with
  | none =>
      cases hg' : getByBarcode s' bar with
      | none => exact h
      | some p' =>
          rw [hg, hg'] at hbc
          cases hbc
  | some p =>
      cases hg' : getByBarcode s' bar with
      | none =>
          rw [hg, hg'] at hbc
          cases hbc
      | some p' =>
          rw [hg, hg'] at hbc
          simp only [Option.map_some'] at hbc
          injection hbc with hid
          simp only
          rw [hid]
          exact addReq_keyReq p p' h

theorem calcOne_keyReq {s s' : Store} {item : PackagingItem} :
    ∀ {m m' : ReqMap}, storesMatch s s' → m.map keyReq = m'.map keyReq →
    (calcOne s m item).map keyReq = (calcOne s' m' item).map keyReq := by
  intro m m' hs h
  unfold calcOne
  cases hb : item.is_bundle with
  | true =>
      cases hcc : item.bundle_components with
      | some comps =>
          clear hb hcc
          induction comps generalizing m m' with
          | nil => exact h
          | cons c cs ih => exact ih (addReq_keyReq c.1 c.1 h)
      | none => exact calcBarcode_keyReq hs h item.product_barcode
  | false =>
      cases hcc : item.bundle_components with
      | some comps => exact calcBarcode_keyReq hs h item.product_barcode
      | none => exact calcBarcode_keyReq hs h item.product_barcode

theorem calcReq_keyReq {s s' : Store} (hs : storesMatch s s')
    (items : List PackagingItem) :
    (calculateStockRequirements s items).map keyReq =
      (calculateStockRequirements s' items).map keyReq := by
  unfold calculateStockRequirements
  have aux : ∀ (is : List PackagingItem) (m m' : ReqMap),
      m.map keyReq = m'.map keyReq →
      (is.foldl (calcOne s) m).map keyReq =
        (is.foldl (calcOne s') m').map keyReq := by
    intro is
    induction is with
    | nil => intro m m' h; exact h
    | cons i irest ih =>
        intro m m' h
        rw [List.foldl_cons, List.foldl_cons]
        exact ih _ _ (calcOne_keyReq hs h)
  exact aux items [] [] rfl

theorem deduct_fold_match {wf : Nat → Bool} {s : Store} :
    ∀ (es : ReqMap) (acc : DeductAcc), storesMatch s acc.ms.store →
    storesMatch s (es.foldl (deductStep wf) acc).ms.store := by
  intro es
  induction es with
  | nil => intro acc h; exact h
  | cons hd rest ih =>
      intro acc h
      rw [List.foldl_cons]
      refine ih _ ?_
      rcases deductStep_store_cases wf acc hd with hc | ⟨q, hc⟩
      · rw [hc]; exact h
      · rw [hc]; exact storesMatch_setStock h

theorem exists_matching_entry {R R' : ReqMap}
    (h : R.map keyReq = R'.map keyReq) {e : String × Product × Int}
    (he : e ∈ R) :
    ∃ e', e' ∈ R' ∧ e'.1 = e.1 ∧ e'.2.2 = e.2.2 := by
  have hmem : keyReq e ∈ R'.map keyReq := by
    rw [← h]
    exact List.mem_map_of_mem keyReq he
  obtain ⟨e', he', hk⟩ := List.mem_map.mp hmem
  have h1 : (keyReq e').1 = (keyReq e).1 := congrArg Prod.fst hk
  have h2 : (keyReq e').2 = (keyReq e).2 := congrArg Prod.snd hk
  exact ⟨e', he', h1, h2⟩

/-- C2: after a successful `deductStockForPackaging` (no error, hence
no rollback) over a store with no negative stock, running
`restoreStockForPackaging` on the resulting store with the same item
batch and no interference returns every product of the requirement map
to exactly its pre-deduct row. -/
theorem deduct_restore_roundtrip (wf : Nat → Bool) (s : Store)
    (items : List PackagingItem) (hnn : nonnegStore s)
    (hsucc : (deductStockForPackaging wf s items).success = true) :
    ∀ e ∈ calculateStockRequirements s items,
      getById (restoreStockForPackaging wfNone
          (deductStockForPackaging wf s items).ms.store items).ms.store
        e.1 = getById s e.1 := by
  intro e he
  have hemp : (deductPhase1 wf s items).errors.isEmpty = true := by
    by_contra hne
    unfold deductStockForPackaging at hsucc
    rw [if_neg hne] at hsucc
    cases hsucc
  have hres : (deductStockForPackaging wf s items).ms =
      (deductPhase1 wf s items).ms := by
    unfold deductStockForPackaging
    rw [if_pos hemp]
  have herr : (deductPhase1 wf s items).errors = [] :=
    List.isEmpty_eq_true.mp hemp
  have hnd := calcReq_nodup s items
  obtain ⟨latest, hget, hle, hfin⟩ := phase1_success wf
    (calculateStockRequirements s items) hnd he ⟨⟨s, 0, []⟩, [], []⟩ herr
  have hmatch : storesMatch s (deductPhase1 wf s items).ms.store :=
    deduct_fold_match (calculateStockRequirements s items)
      ⟨⟨s, 0, []⟩, [], []⟩ (storesMatch_refl s)
  have hkey := calcReq_keyReq hmatch items
  obtain ⟨e', he', hk1, hk2⟩ := exists_matching_entry hkey he
  have hget1 : getById (deductPhase1 wf s items).ms.store e'.1 =
      some { latest with
        stock_quantity := latest.stock_quantity - e.2.2 } := by
    rw [hk1]
    exact hfin
  have hrestore := restore_entry wfNone (fun _ => rfl)
    (calculateStockRequirements (deductPhase1 wf s items).ms.store items)
    (calcReq_nodup _ items) he'
    (⟨(deductPhase1 wf s items).ms.store, 0, []⟩, []) hget1
  have h0 : 0 ≤ latest.stock_quantity := hnn latest (getById_mem hget)
  have hrow : ({ ({ latest with
        stock_quantity := latest.stock_quantity - e.2.2 } : Product) with
      stock_quantity := max 0
        (({ latest with
            stock_quantity := latest.stock_quantity - e.2.2 } :
          Product).stock_quantity + e'.2.2) } : Product) = latest := by
    have hv : max 0 (({ latest with
        stock_quantity := latest.stock_quantity - e.2.2 } :
          Product).stock_quantity + e'.2.2) = latest.stock_quantity := by
      show max 0 (latest.stock_quantity - e.2.2 + e'.2.2) = _
      rw [hk2]
      omega
    calc ({ ({ latest with
          stock_quantity := latest.stock_quantity - e.2.2 } : Product) with
        stock_quantity := max 0
          (({ latest with
              stock_quantity := latest.stock_quantity - e.2.2 } :
            Product).stock_quantity + e'.2.2) } : Product)
        = { latest with stock_quantity := latest.stock_quantity } := by
          rw [hv]
      _ = latest := rfl
  rw [hres]
  show getById ((calculateStockRequirements
      (deductPhase1 wf s items).ms.store items).foldl (restoreStep wfNone)
      (⟨(deductPhase1 wf s items).ms.store, 0, []⟩, [])).1.store e.1 =
    getById s e.1
  rw [← hk1, hrestore, hrow, hk1, hget]

theorem deduct_restore_roundtrip_witness :
    nonnegStore store0 ∧
    (deductStockForPackaging wfNone store0
      [itemA1, itemA1, itemB1]).success = true ∧
    (∀ e ∈ calculateStockRequirements store0 [itemA1, itemA1, itemB1],
      getById (restoreStockForPackaging wfNone
          (deductStockForPackaging wfNone store0
            [itemA1, itemA1, itemB1]).ms.store
          [itemA1, itemA1, itemB1]).ms.store e.1 =
        getById store0 e.1) := by
  refine ⟨by unfold nonnegStore; decide, by decide, ?_⟩
  exact deduct_restore_roundtrip wfNone store0 [itemA1, itemA1, itemB1]
    (by unfold nonnegStore; decide) (by decide)

/-! ## Rollback on mid-batch failure (C1) -/

/-- C1: if the requirement map is processed in order [A, B, C], A and B
succeed, and C fails — either through insufficient stock (with no store
failures) or through a store failure of C's own write — then after
`deductStockForPackaging` returns, A and B hold exactly their pre-call
rows again (deducted, then written back by the rollback) and C's row is
unchanged, and the call reports `success = false` with a non-empty error
list. -/
theorem deduct_rollback_on_failure (wf : Nat → Bool) (s : Store)
    (items : List PackagingItem) (a b c : String) (A B C : Product)
    (ra rb rc : Int) (la lb lc : Product)
    (hmap : calculateStockRequirements s items =
      [(a, A, ra), (b, B, rb), (c, C, rc)])
    (hba : ¬ b = a) (hca : ¬ c = a) (hcb : ¬ c = b)
    (hga : getById s a = some la) (hgb : getById s b = some lb)
    (hgc : getById s c = some lc)
    (h0a : 0 ≤ la.stock_quantity) (h0b : 0 ≤ lb.stock_quantity)
    (h0c : 0 ≤ lc.stock_quantity)
    (hra : ra ≤ la.stock_quantity) (hrb : rb ≤ lb.stock_quantity)
    (hfail : (lc.stock_quantity < rc ∧ ∀ n, wf n = false) ∨
      (rc ≤ lc.stock_quantity ∧ wf 2 = true ∧
        ∀ n, ¬ n = 2 → wf n = false)) :
    getById (deductStockForPackaging wf s items).ms.store a = some la ∧
    getById (deductStockForPackaging wf s items).ms.store b = some lb ∧
    getById (deductStockForPackaging wf s items).ms.store c = some lc ∧
    (deductStockForPackaging wf s items).success = false ∧
    ¬ (deductStockForPackaging wf s items).errors = [] := by
  have hab : ¬ a = b := fun h => hba h.symm
  have hac : ¬ a = c := fun h => hca h.symm
  have hbc : ¬ b = c := fun h => hcb h.symm
  have hwf0 : wf 0 = false := by
    rcases hfail with ⟨_, hw⟩ | ⟨_, _, hw⟩
    · exact hw 0
    · exact hw 0 (by omega)
  have hwf1 : wf 1 = false := by
    rcases hfail with ⟨_, hw⟩ | ⟨_, _, hw⟩
    · exact hw 1
    · exact hw 1 (by omega)
  have hphase : deductPhase1 wf s items =
      deductStep wf (deductStep wf (deductStep wf ⟨⟨s, 0, []⟩, [], []⟩
        (a, A, ra)) (b, B, rb)) (c, C, rc) := by
    unfold deductPhase1
    rw [hmap]
    rfl
  have hstep1 : deductStep wf ⟨⟨s, 0, []⟩, [], []⟩ (a, A, ra) =
      ⟨⟨setStock s a (la.stock_quantity - ra), 1,
        [(a, la.stock_quantity - ra)]⟩, [], [(a, la.stock_quantity)]⟩ := by
    rw [deductStep_ok hga
      (show (0 : Int) ≤ la.stock_quantity - ra by omega) hwf0]
    rfl
  have hgb1 : getById (setStock s a (la.stock_quantity - ra)) b =
      some lb := by
    rw [getById_setStock_ne hba]
    exact hgb
  have hstep2 : deductStep wf
      ⟨⟨setStock s a (la.stock_quantity - ra), 1,
        [(a, la.stock_quantity - ra)]⟩, [], [(a, la.stock_quantity)]⟩
      (b, B, rb) =
      ⟨⟨setStock (setStock s a (la.stock_quantity - ra)) b
          (lb.stock_quantity - rb), 2,
        [(a, la.stock_quantity - ra), (b, lb.stock_quantity - rb)]⟩, [],
       [(a, la.stock_quantity), (b, lb.stock_quantity)]⟩ := by
    rw [deductStep_ok hgb1
      (show (0 : Int) ≤ lb.stock_quantity - rb by omega) hwf1]
    rfl
  have hgc2 : getById (setStock (setStock s a (la.stock_quantity - ra)) b
      (lb.stock_quantity - rb)) c = some lc := by
    rw [getById_setStock_ne hcb, getById_setStock_ne hca]
    exact hgc
  -- the store after the two successful deductions
  have hga2 : getById (setStock (setStock s a (la.stock_quantity - ra)) b
      (lb.stock_quantity - rb)) a =
      some { la with stock_quantity := la.stock_quantity - ra } := by
    rw [getById_setStock_ne hab, getById_setStock_self, hga]
    rfl
  have hgb2 : getById (setStock (setStock s a (la.stock_quantity - ra)) b
      (lb.stock_quantity - rb)) b =
      some { lb with stock_quantity := lb.stock_quantity - rb } := by
    rw [getById_setStock_self, hgb1]
    rfl
  rcases hfail with ⟨hlt, hwfall⟩ | ⟨hle, hwf2, hwfne⟩
  · -- C fails through insufficient stock; no store failures anywhere
    have hstep3 : deductStep wf
        ⟨⟨setStock (setStock s a (la.stock_quantity - ra)) b
            (lb.stock_quantity - rb), 2,
          [(a, la.stock_quantity - ra), (b, lb.stock_quantity - rb)]⟩, [],
         [(a, la.stock_quantity), (b, lb.stock_quantity)]⟩ (c, C, rc) =
        ⟨⟨setStock (setStock s a (la.stock_quantity - ra)) b
            (lb.stock_quantity - rb), 2,
          [(a, la.stock_quantity - ra), (b, lb.stock_quantity - rb)]⟩,
         [.insufficient c C.name rc lc.stock_quantity],
         [(a, la.stock_quantity), (b, lb.stock_quantity)]⟩ := by
      rw [deductStep_insufficient wf hgc2
        (show lc.stock_quantity - rc < 0 by omega)]
      rfl
    have hp : deductPhase1 wf s items =
        ⟨⟨setStock (setStock s a (la.stock_quantity - ra)) b
            (lb.stock_quantity - rb), 2,
          [(a, la.stock_quantity - ra), (b, lb.stock_quantity - rb)]⟩,
         [.insufficient c C.name rc lc.stock_quantity],
         [(a, la.stock_quantity), (b, lb.stock_quantity)]⟩ := by
      rw [hphase, hstep1, hstep2, hstep3]
    have hfull : deductStockForPackaging wf s items =
        ⟨deductRollback wf
          ⟨⟨setStock (setStock s a (la.stock_quantity - ra)) b
              (lb.stock_quantity - rb), 2,
            [(a, la.stock_quantity - ra), (b, lb.stock_quantity - rb)]⟩,
           [.insufficient c C.name rc lc.stock_quantity],
           [(a, la.stock_quantity), (b, lb.stock_quantity)]⟩, false,
         [.insufficient c C.name rc lc.stock_quantity]⟩ := by
      unfold deductStockForPackaging
      rw [hp]
      rfl
    have hrb1 : rollbackStep wf
        ⟨setStock (setStock s a (la.stock_quantity - ra)) b
            (lb.stock_quantity - rb), 2,
          [(a, la.stock_quantity - ra), (b, lb.stock_quantity - rb)]⟩
        (a, la.stock_quantity) =
        ⟨setStock (setStock (setStock s a (la.stock_quantity - ra)) b
            (lb.stock_quantity - rb)) a la.stock_quantity, 3,
          [(a, la.stock_quantity - ra), (b, lb.stock_quantity - rb),
           (a, la.stock_quantity)]⟩ := by
      rw [rollbackStep_ok hga2 (hwfall 2)]
      rw [max_eq_right h0a]
      rfl
    have hgb3 : getById (setStock (setStock (setStock s a
        (la.stock_quantity - ra)) b (lb.stock_quantity - rb)) a
        la.stock_quantity) b =
        some { lb with stock_quantity := lb.stock_quantity - rb } := by
      rw [getById_setStock_ne hba]
      exact hgb2
    have hrb2 : rollbackStep wf
        ⟨setStock (setStock (setStock s a (la.stock_quantity - ra)) b
            (lb.stock_quantity - rb)) a la.stock_quantity, 3,
          [(a, la.stock_quantity - ra), (b, lb.stock_quantity - rb),
           (a, la.stock_quantity)]⟩ (b, lb.stock_quantity) =
        ⟨setStock (setStock (setStock (setStock s a
            (la.stock_quantity - ra)) b (lb.stock_quantity - rb)) a
            la.stock_quantity) b lb.stock_quantity, 4,
          [(a, la.stock_quantity - ra), (b, lb.stock_quantity - rb),
           (a, la.stock_quantity), (b, lb.stock_quantity)]⟩ := by
      rw [rollbackStep_ok hgb3 (hwfall 3)]
      rw [max_eq_right h0b]
      rfl
    have hroll : deductRollback wf
        ⟨⟨setStock (setStock s a (la.stock_quantity - ra)) b
            (lb.stock_quantity - rb), 2,
          [(a, la.stock_quantity - ra), (b, lb.stock_quantity - rb)]⟩,
         [.insufficient c C.name rc lc.stock_quantity],
         [(a, la.stock_quantity), (b, lb.stock_quantity)]⟩ =
        ⟨setStock (setStock (setStock (setStock s a
            (la.stock_quantity - ra)) b (lb.stock_quantity - rb)) a
            la.stock_quantity) b lb.stock_quantity, 4,
          [(a, la.stock_quantity - ra), (b, lb.stock_quantity - rb),
           (a, la.stock_quantity), (b, lb.stock_quantity)]⟩ := by
      unfold deductRollback
      rw [List.foldl_cons, hrb1, List.foldl_cons, hrb2, List.foldl_nil]
    rw [hfull, hroll]
    refine ⟨?_, ?_, ?_, rfl, by intro h; cases h⟩
    · show getById (setStock _ b lb.stock_quantity) a = some la
      rw [getById_setStock_ne hab, getById_setStock_self, hga2]
      rfl
    · show getById (setStock _ b lb.stock_quantity) b = some lb
      rw [getById_setStock_self, getById_setStock_ne hba, hgb2]
      rfl
    · show getById (setStock _ b lb.stock_quantity) c = some lc
      rw [getById_setStock_ne hcb, getById_setStock_ne hca]
      exact hgc2
  · -- C's own write fails through a store failure
    have hstep3 : deductStep wf
        ⟨⟨setStock (setStock s a (la.stock_quantity - ra)) b
            (lb.stock_quantity - rb), 2,
          [(a, la.stock_quantity - ra), (b, lb.stock_quantity - rb)]⟩, [],
         [(a, la.stock_quantity), (b, lb.stock_quantity)]⟩ (c, C, rc) =
        ⟨⟨setStock (setStock s a (la.stock_quantity - ra)) b
            (lb.stock_quantity - rb), 3,
          [(a, la.stock_quantity - ra), (b, lb.stock_quantity - rb)]⟩,
         [.updateFailed c C.name],
         [(a, la.stock_quantity), (b, lb.stock_quantity),
          (c, lc.stock_quantity)]⟩ := by
      rw [deductStep_writefail hgc2
        (show (0 : Int) ≤ lc.stock_quantity - rc by omega) hwf2]
      rfl
    have hp : deductPhase1 wf s items =
        ⟨⟨setStock (setStock s a (la.stock_quantity - ra)) b
            (lb.stock_quantity - rb), 3,
          [(a, la.stock_quantity - ra), (b, lb.stock_quantity - rb)]⟩,
         [.updateFailed c C.name],
         [(a, la.stock_quantity), (b, lb.stock_quantity),
          (c, lc.stock_quantity)]⟩ := by
      rw [hphase, hstep1, hstep2, hstep3]
    have hfull : deductStockForPackaging wf s items =
        ⟨deductRollback wf
          ⟨⟨setStock (setStock s a (la.stock_quantity - ra)) b
              (lb.stock_quantity - rb), 3,
            [(a, la.stock_quantity - ra), (b, lb.stock_quantity - rb)]⟩,
           [.updateFailed c C.name],
           [(a, la.stock_quantity), (b, lb.stock_quantity),
            (c, lc.stock_quantity)]⟩, false,
         [.updateFailed c C.name]⟩ := by
      unfold deductStockForPackaging
      rw [hp]
      rfl
    have hrb1 : rollbackStep wf
        ⟨setStock (setStock s a (la.stock_quantity - ra)) b
            (lb.stock_quantity - rb), 3,
          [(a, la.stock_quantity - ra), (b, lb.stock_quantity - rb)]⟩
        (a, la.stock_quantity) =
        ⟨setStock (setStock (setStock s a (la.stock_quantity - ra)) b
            (lb.stock_quantity - rb)) a la.stock_quantity, 4,
          [(a, la.stock_quantity - ra), (b, lb.stock_quantity - rb),
           (a, la.stock_quantity)]⟩ := by
      rw [rollbackStep_ok hga2 (hwfne 3 (by omega))]
      rw [max_eq_right h0a]
      rfl
    have hgb3 : getById (setStock (setStock (setStock s a
        (la.stock_quantity - ra)) b (lb.stock_quantity - rb)) a
        la.stock_quantity) b =
        some { lb with stock_quantity := lb.stock_quantity - rb } := by
      rw [getById_setStock_ne hba]
      exact hgb2
    have hrb2 : rollbackStep wf
        ⟨setStock (setStock (setStock s a (la.stock_quantity - ra)) b
            (lb.stock_quantity - rb)) a la.stock_quantity, 4,
          [(a, la.stock_quantity - ra), (b, lb.stock_quantity - rb),
           (a, la.stock_quantity)]⟩ (b, lb.stock_quantity) =
        ⟨setStock (setStock (setStock (setStock s a
            (la.stock_quantity - ra)) b (lb.stock_quantity - rb)) a
            la.stock_quantity) b lb.stock_quantity, 5,
          [(a, la.stock_quantity - ra), (b, lb.stock_quantity - rb),
           (a, la.stock_quantity), (b, lb.stock_quantity)]⟩ := by
      rw [rollbackStep_ok hgb3 (hwfne 4 (by omega))]
      rw [max_eq_right h0b]
      rfl
    have hgc4 : getById (setStock (setStock (setStock (setStock s a
        (la.stock_quantity - ra)) b (lb.stock_quantity - rb)) a
        la.stock_quantity) b lb.stock_quantity) c = some lc := by
      rw [getById_setStock_ne hcb, getById_setStock_ne hca]
      exact hgc2
    have hrb3 : rollbackStep wf
        ⟨setStock (setStock (setStock (setStock s a
            (la.stock_quantity - ra)) b (lb.stock_quantity - rb)) a
            la.stock_quantity) b lb.stock_quantity, 5,
          [(a, la.stock_quantity - ra), (b, lb.stock_quantity - rb),
           (a, la.stock_quantity), (b, lb.stock_quantity)]⟩
        (c, lc.stock_quantity) =
        ⟨setStock (setStock (setStock (setStock (setStock s a
            (la.stock_quantity - ra)) b (lb.stock_quantity - rb)) a
            la.stock_quantity) b lb.stock_quantity) c lc.stock_quantity, 6,
          [(a, la.stock_quantity - ra), (b, lb.stock_quantity - rb),
           (a, la.stock_quantity), (b, lb.stock_quantity),
           (c, lc.stock_quantity)]⟩ := by
      rw [rollbackStep_ok hgc4 (hwfne 5 (by omega))]
      rw [max_eq_right h0c]
      rfl
    have hroll : deductRollback wf
        ⟨⟨setStock (setStock s a (la.stock_quantity - ra)) b
            (lb.stock_quantity - rb), 3,
          [(a, la.stock_quantity - ra), (b, lb.stock_quantity - rb)]⟩,
         [.updateFailed c C.name],
         [(a, la.stock_quantity), (b, lb.stock_quantity),
          (c, lc.stock_quantity)]⟩ =
        ⟨setStock (setStock (setStock (setStock (setStock s a
            (la.stock_quantity - ra)) b (lb.stock_quantity - rb)) a
            la.stock_quantity) b lb.stock_quantity) c lc.stock_quantity, 6,
          [(a, la.stock_quantity - ra), (b, lb.stock_quantity - rb),
           (a, la.stock_quantity), (b, lb.stock_quantity),
           (c, lc.stock_quantity)]⟩ := by
      unfold deductRollback
      rw [List.foldl_cons, hrb1, List.foldl_cons, hrb2, List.foldl_cons,
        hrb3, List.foldl_nil]
    rw [hfull, hroll]
    refine ⟨?_, ?_, ?_, rfl, by intro h; cases h⟩
    · show getById (setStock _ c lc.stock_quantity) a = some la
      rw [getById_setStock_ne hac, getById_setStock_ne hab,
        getById_setStock_self, hga2]
      rfl
    · show getById (setStock _ c lc.stock_quantity) b = some lb
      rw [getById_setStock_ne hbc, getById_setStock_self,
        getById_setStock_ne hba, hgb2]
      rfl
    · show getById (setStock _ c lc.stock_quantity) c = some lc
      rw [getById_setStock_self, hgc4]
      rfl

theorem deduct_rollback_on_failure_witness :
    (calculateStockRequirements store0
      [⟨"X", true, some [(prodA, 2), (prodB, 1), (prodC, 3)]⟩] =
      [("a", prodA, 2), ("b", prodB, 1), ("c", prodC, 3)]) ∧
    (getById (deductStockForPackaging wfNone store0
      [⟨"X", true, some [(prodA, 2), (prodB, 1), (prodC, 3)]⟩]).ms.store
        "a" = some prodA ∧
    getById (deductStockForPackaging wfNone store0
      [⟨"X", true, some [(prodA, 2), (prodB, 1), (prodC, 3)]⟩]).ms.store
        "b" = some prodB ∧
    getById (deductStockForPackaging wfNone store0
      [⟨"X", true, some [(prodA, 2), (prodB, 1), (prodC, 3)]⟩]).ms.store
        "c" = some prodC ∧
    (deductStockForPackaging wfNone store0
      [⟨"X", true, some [(prodA, 2), (prodB, 1), (prodC, 3)]⟩]).success =
      false ∧
    ¬ (deductStockForPackaging wfNone store0
      [⟨"X", true, some [(prodA, 2), (prodB, 1), (prodC, 3)]⟩]).errors =
      []) := by
  refine ⟨by decide, ?_⟩
  exact deduct_rollback_on_failure wfNone store0
    [⟨"X", true, some [(prodA, 2), (prodB, 1), (prodC, 3)]⟩]
    "a" "b" "c" prodA prodB prodC 2 1 3 prodA prodB prodC
    (by decide) (by decide) (by decide) (by decide) (by decide)
    (by decide) (by decide) (by decide) (by decide) (by decide)
    (by decide) (by decide)
    (Or.inl ⟨by decide, fun _ => rfl⟩)

end Wrapster
